import Mathlib

/-!
Verification of the `geoutil` geoset library: a shallow embedding of the
tree data model (`Geo` / `Item` / `Geoset`), its transform operations, and
its three serialization backends (geoset XML, polylist XML, DS9 region
text), with theorems settling the specification claims.

Conventions of the embedding:
* Python `OrderedDict` values are modelled as ordered association lists
  (`List (String × Scalar)`); `OrderedDict(pairs)` construction is
  `odFromPairs` (last-value-wins, first-position-kept).
* Python `None` is `Option.none`.
* `shapely` geometry values handled ring-by-ring (translate, region-text
  write) are modelled concretely as `PolyRep` (exterior ring plus interior
  rings, coordinates in `ℚ`); geometry values built opaquely by the region
  reader are modelled as the syntax tree `DGeom` of the library calls made
  (`Polygon`, `union`, `difference`).  Operations of the external geometry
  and FITS-header libraries that the code merely passes through are taken
  as function parameters, so every theorem holds for any implementation of
  the external contract.
-/

namespace Geoutil

/-- A scalar Python float value as producible by `float(...)`. -/
inductive PyFloat where
  | finite (q : ℚ)
  | infinite (neg : Bool)
  | nan
deriving DecidableEq, Repr

/-- A scalar attribute value: the closed value union stored in geoset
attribute maps (int, float, bool, or string). -/
inductive Scalar where
  | int (n : ℤ)
  | float (f : PyFloat)
  | bool (b : Bool)
  | str (s : String)
deriving DecidableEq, Repr

/-- One `d[k] = v` step of Python dict semantics on an ordered
association list: update in place if the key exists, else append. -/
def odInsert {α : Type} (l : List (String × α)) (k : String) (v : α) :
    List (String × α) :=
  if l.any (fun p => p.1 = k) then
    l.map (fun p => if p.1 = k then (k, v) else p)
  else
    l ++ [(k, v)]

/-- `OrderedDict(pairs)`: fold the pairs through dict insertion. -/
def odFromPairs {α : Type} (l : List (String × α)) : List (String × α) :=
  l.foldl (fun acc p => odInsert acc p.1 p.2) []

theorem odInsert_notMem {α : Type} (l : List (String × α)) (k : String) (v : α)
    (h : ∀ p ∈ l, p.1 ≠ k) : odInsert l k v = l ++ [(k, v)] := by
  unfold odInsert
  rw [if_neg]
  simp only [List.any_eq_true, decide_eq_true_eq]
  rintro ⟨p, hp, hk⟩
  exact h p hp hk

/-- On a list whose keys are already distinct, `OrderedDict` construction
is the identity. -/
theorem odFromPairs_nodup {α : Type} (l : List (String × α))
    (h : (l.map Prod.fst).Nodup) : odFromPairs l = l := by
  suffices H : ∀ acc : List (String × α),
      (∀ p ∈ acc, ∀ q ∈ l, p.1 ≠ q.1) →
      l.foldl (fun acc p => odInsert acc p.1 p.2) acc = acc ++ l by
    simpa using H [] (by simp)
  induction l with
  | nil => intro acc _; simp
  | cons hd tl ih =>
      intro acc hacc
      have hnd : (tl.map Prod.fst).Nodup := (List.nodup_cons.mp h).2
      have hhd : hd.1 ∉ tl.map Prod.fst := (List.nodup_cons.mp h).1
      simp only [List.foldl_cons]
      rw [odInsert_notMem acc hd.1 hd.2
        (fun p hp => hacc p hp hd (List.mem_cons_self hd tl))]
      rw [ih hnd]
      · simp
      · intro p hp q hq
        rcases List.mem_append.mp hp with hp' | hp'
        · exact hacc p hp' q (List.mem_cons_of_mem hd hq)
        · have : p = (hd.1, hd.2) := by simpa using hp'
          subst this
          intro hk
          apply hhd
          have hq1 : q.1 ∈ tl.map Prod.fst := List.mem_map_of_mem Prod.fst hq
          have hk' : hd.1 = q.1 := hk
          rw [hk']
          exact hq1

/-- Ordered attribute mapping (`OrderedDict`-like), or `None`. -/
abbrev Attrs := Option (List (String × Scalar))

/-- `geoutil._geoset.Geo`: one geometry value (or `None`) plus attributes.
`γ` is the type of the external geometry value. -/
structure Geo (γ : Type) where
  geo : Option γ
  attrs : Attrs
deriving DecidableEq, Repr

/-- `geoutil._geoset.Item`: an ordered group of `Geo` plus attributes. -/
structure Item (γ : Type) where
  geos : List (Geo γ)
  attrs : Attrs
deriving DecidableEq, Repr

/-- `geoutil._geoset.Geoset`: ordered groups, attributes, and an optional
FITS header of external type `η`. -/
structure Geoset (γ : Type) (η : Type) where
  items : List (Item γ)
  attrs : Attrs
  hdr : Option η
deriving DecidableEq, Repr

/-- The Python argument passed as the child sequence of an `Item` or
`Geoset` constructor: `None`, a bare child object, or a list of children. -/
inductive SeqArg (α : Type) where
  | null
  | single (a : α)
  | list (l : List α)
deriving DecidableEq, Repr

/-- Python truthiness of a `SeqArg`: `None` and the empty list are falsy;
a bare child object (no `__len__`/`__nonzero__`) and a non-empty list are
truthy. -/
def SeqArg.falsy {α : Type} : SeqArg α → Bool
  | .null => true
  | .single _ => false
  | .list l => l.isEmpty

/-- `Item.__init__` child-sequence normalization (`if not geos: geos = []
elif not getattr(geos, '__iter__', False): geos = [geos]`).  Returns the
stored list together with a flag recording whether the stored list object
is the caller's own list argument (the final `else` branch, which stores
the argument itself) rather than a list freshly built by the constructor. -/
def itemInitGeos {α : Type} (geos : SeqArg α) : List α × Bool :=
  if geos.falsy then ([], false)
  else
    match geos with
    | .null => ([], false)
    | .single a => ([a], false)
    | .list l => (l, true)

/-- `Geoset.__init__` child-sequence normalization (`if items is None:
items = [] elif not getattr(items, '__iter__', False): items = [items]`).
Same stored-list-is-the-argument flag as `itemInitGeos`. -/
def geosetInitItems {α : Type} (items : SeqArg α) : List α × Bool :=
  match items with
  | .null => ([], false)
  | .single a => ([a], false)
  | .list l => (l, true)

/-- `Item(geos, attrs)` through the constructor normalization. -/
def mkItem {γ : Type} (geos : SeqArg (Geo γ)) (attrs : Attrs) : Item γ :=
  ⟨(itemInitGeos geos).1, attrs⟩

/-- `Geoset(items, attrs, hdr)` through the constructor normalization. -/
def mkGeoset {γ η : Type} (items : SeqArg (Item γ)) (attrs : Attrs)
    (hdr : Option η) : Geoset γ η :=
  ⟨(geosetInitItems items).1, attrs, hdr⟩

/-- The `Geoset.geos` property: rebuild the flattened listing by looping
over every item and appending each of its geos (`_geoset.py` 657-674). -/
def Geoset.geosView {γ η : Type} (g : Geoset γ η) : List (Geo γ) :=
  g.items.foldl (fun acc item => item.geos.foldl (fun acc2 geo => acc2 ++ [geo]) acc) []

/-- The flattened listing as the spec words it: every `Geo` of every
`Item`, in group order then within-group order. -/
def flattenedGeos {γ : Type} (items : List (Item γ)) : List (Geo γ) :=
  items.flatMap Item.geos

theorem foldl_append_singleton {α : Type} (l acc : List α) :
    l.foldl (fun acc2 a => acc2 ++ [a]) acc = acc ++ l := by
  induction l generalizing acc with
  | nil => simp
  | cons hd tl ih => simp [ih]

theorem geosView_eq_flattened {γ η : Type} (g : Geoset γ η) :
    g.geosView = flattenedGeos g.items := by
  unfold Geoset.geosView flattenedGeos
  suffices H : ∀ (items : List (Item γ)) (acc : List (Geo γ)),
      items.foldl (fun acc item =>
        item.geos.foldl (fun acc2 geo => acc2 ++ [geo]) acc) acc
        = acc ++ items.flatMap Item.geos by
    simpa using H g.items []
  intro items
  induction items with
  | nil => intro acc; simp
  | cons hd tl ih =>
      intro acc
      rw [List.foldl_cons, foldl_append_singleton, ih, List.flatMap_cons,
        List.append_assoc]

/-- `self.attrs` rebuilt as `OrderedDict((key, val) for key, val in
self.attrs.items())` when not `None` (the attribute carry-over of every
transform method). -/
def copyAttrs (a : Attrs) : Attrs :=
  a.map (fun l => l.map (fun kv => (kv.1, kv.2)))

theorem copyAttrs_eq (a : Attrs) : copyAttrs a = a := by
  cases a with
  | none => rfl
  | some l => simp [copyAttrs]

/-- `Geo.translate`, with the external call
`_utils.poly_translate([self.geo], dx, dy)[0]` abstracted as `tr`. -/
def Geo.translateW {γ : Type} (tr : γ → γ) (g : Geo γ) : Geo γ :=
  ⟨g.geo.map tr, copyAttrs g.attrs⟩

/-- `Geo.pix2world`, with the external call
`_utils.poly_pix2world([self.geo], hdr)[0]` abstracted as `pw`. -/
def Geo.pix2worldW {γ : Type} (pw : γ → γ) (g : Geo γ) : Geo γ :=
  ⟨g.geo.map pw, copyAttrs g.attrs⟩

/-- `Geo.world2pix`, with the external call
`_utils.poly_world2pix([self.geo], hdr)[0]` abstracted as `wp`. -/
def Geo.world2pixW {γ : Type} (wp : γ → γ) (g : Geo γ) : Geo γ :=
  ⟨g.geo.map wp, copyAttrs g.attrs⟩

/-- `Geo.copy`, with the external geometry duplication
`self.geo.union(geometry.Point())` abstracted as `un`. -/
def Geo.copyW {γ : Type} (un : γ → γ) (g : Geo γ) : Geo γ :=
  ⟨g.geo.map un, copyAttrs g.attrs⟩

/-- C5 counterexample: constructing a Group from an *empty* list takes the
falsy branch, so the stored list is a fresh empty list, not the caller's
list object — the stored-as-is flag is `false`, refuting "an actual
list/tuple input is stored as-is by reference" as a universal statement. -/
theorem itemInit_emptyList_not_aliased :
    itemInitGeos (SeqArg.list ([] : List (Geo Unit))) = ([], false) := by
  rfl

/-- C5 (amended): for both Group and Root construction, `None` yields an
empty sequence, a bare child is wrapped in a one-element sequence, and a
*non-empty* list is stored as-is by reference; an empty list also yields
an empty sequence, but for a Group it is a fresh list (falsy branch)
while a Root stores the caller's empty list itself. -/
theorem construction_normalization {α : Type} :
    itemInitGeos (SeqArg.null : SeqArg α) = ([], false)
    ∧ (∀ a : α, itemInitGeos (SeqArg.single a) = ([a], false))
    ∧ (∀ l : List α, l ≠ [] → itemInitGeos (SeqArg.list l) = (l, true))
    ∧ itemInitGeos (SeqArg.list ([] : List α)) = ([], false)
    ∧ geosetInitItems (SeqArg.null : SeqArg α) = ([], false)
    ∧ (∀ a : α, geosetInitItems (SeqArg.single a) = ([a], false))
    ∧ (∀ l : List α, geosetInitItems (SeqArg.list l) = (l, true)) := by
  refine ⟨rfl, fun a => rfl, fun l hl => ?_, rfl, rfl, fun a => rfl, fun l => rfl⟩
  unfold itemInitGeos SeqArg.falsy
  simp [List.isEmpty_iff, hl]

/-- C5 witness: the amended normalization at concrete inputs. -/
theorem construction_normalization_witness :
    itemInitGeos (SeqArg.list [(0 : ℤ), 1]) = ([0, 1], true)
    ∧ geosetInitItems (SeqArg.list [(0 : ℤ), 1]) = ([0, 1], true)
    ∧ itemInitGeos (SeqArg.single (0 : ℤ)) = ([0], false) := by
  refine ⟨(construction_normalization).2.2.1 [0, 1] (by simp), ?_, ?_⟩
  · exact (construction_normalization).2.2.2.2.2.2 [0, 1]
  · exact (construction_normalization).2.1 0

/-- C6: the `geos` view is the flattening of the current groups in
group-then-within-group order: it always equals `flattenedGeos` of the
*current* `items` (so it reflects any mutation of the groups — in this
pure model "mutation since the previous access" is replacing `items`),
and for groups of sizes `[0, 2, 1]` it is exactly the 3-element listing. -/
theorem geosView_flatten {γ η : Type} :
    (∀ g : Geoset γ η, g.geosView = flattenedGeos g.items)
    ∧ (∀ (g : Geoset γ η) (newItems : List (Item γ)),
        (Geoset.mk newItems g.attrs g.hdr).geosView = flattenedGeos newItems)
    ∧ (∀ (a b c : Geo γ) (t1 t2 t3 ta : Attrs) (hdr : Option η),
        (Geoset.mk [⟨[], t1⟩, ⟨[a, b], t2⟩, ⟨[c], t3⟩] ta hdr).geosView = [a, b, c]
        ∧ (Geoset.mk [⟨[], t1⟩, ⟨[a, b], t2⟩, ⟨[c], t3⟩] ta hdr).geosView.length = 3) := by
  refine ⟨fun g => geosView_eq_flattened g,
    fun g newItems => geosView_eq_flattened _, fun a b c t1 t2 t3 ta hdr => ?_⟩
  constructor
  · rw [geosView_eq_flattened]
    simp [flattenedGeos]
  · rw [geosView_eq_flattened]
    simp [flattenedGeos]

/-- C9: every transform on a `Geo` with absent geometry yields absent
geometry and an equal attribute map, for *any* behaviour `tr`/`pw`/`wp`/`un`
of the external geometry and WCS libraries — the result does not depend on
them, because the `None` branch never invokes them. -/
theorem absent_geometry_propagation {γ : Type} :
    ∀ (tr pw wp un : γ → γ) (a : Attrs),
      Geo.translateW tr ⟨none, a⟩ = ⟨none, a⟩
      ∧ Geo.pix2worldW pw ⟨none, a⟩ = ⟨none, a⟩
      ∧ Geo.world2pixW wp ⟨none, a⟩ = ⟨none, a⟩
      ∧ Geo.copyW un ⟨none, a⟩ = ⟨none, a⟩ := by
  intro tr pw wp un a
  refine ⟨?_, ?_, ?_, ?_⟩ <;>
    simp [Geo.translateW, Geo.pix2worldW, Geo.world2pixW, Geo.copyW, copyAttrs_eq]

/-- A `shapely` polygon as accessed ring-by-ring: one exterior ring and a
list of interior (hole) rings; coordinates modelled exactly in `ℚ`. -/
structure PolyRep where
  exterior : List (ℚ × ℚ)
  interiors : List (List (ℚ × ℚ))
deriving DecidableEq, Repr

/-- The `Polygon` / `MultiPolygon` duck-typed branching
(`poly.type == 'Polygon'`) as a tagged variant. -/
inductive Geom where
  | single (p : PolyRep)
  | multi (ps : List PolyRep)
deriving DecidableEq, Repr

/-- `geometry.Polygon()`: the empty polygon. -/
def emptyPoly : PolyRep := ⟨[], []⟩

/-- The `if poly.type == 'Polygon': poly = [poly]` idiom: the ordered list
of single-polygon components. -/
def toPolyList : Geom → List PolyRep
  | .single p => [p]
  | .multi ps => ps

/-- Modelled from the spec: the external geometry library's `difference`
in the one restricted form used by the per-ring rebuild loops of
`poly_translate` / `poly_pix2world` / `poly_world2pix` — subtracting a
freshly built hole polygon that lies inside the subject attaches the
hole's exterior ring as one more interior ring. -/
def holeDifference (p : PolyRep) (h : PolyRep) : PolyRep :=
  ⟨p.exterior, p.interiors ++ [h.exterior]⟩

/-- Shift every vertex of a ring by `(dx, dy)`. -/
def translateRing (dx dy : ℚ) (r : List (ℚ × ℚ)) : List (ℚ × ℚ) :=
  r.map (fun q => (q.1 + dx, q.2 + dy))

/-- The inner `convert` of `poly_translate` (`_utils.py` 209-218): rebuild
the polygon from its shifted exterior ring, then subtract each shifted
hole in turn. -/
def convertTranslate (p : PolyRep) (dx dy : ℚ) : PolyRep :=
  p.interiors.foldl
    (fun new_poly hole => holeDifference new_poly ⟨translateRing dx dy hole, []⟩)
    ⟨translateRing dx dy p.exterior, []⟩

/-- `_utils.poly_translate` with scalar shifts (the list normalization
broadcasts a scalar shift to every polygon, which for scalars is this
map); `MultiPolygon` values convert component-wise. -/
def poly_translate (poly_list : List Geom) (dx dy : ℚ) : List Geom :=
  poly_list.map (fun poly =>
    match poly with
    | .multi ps => .multi (ps.map (fun subpoly => convertTranslate subpoly dx dy))
    | .single p => .single (convertTranslate p dx dy))

/-- `_utils.poly_translate([geo], dx, dy)[0]`: the single-geometry use
made by `Geo.translate`. -/
def geomTranslate (dx dy : ℚ) (g : Geom) : Geom :=
  match poly_translate [g] dx dy with
  | r :: _ => r
  | [] => g

/-- `Geo.translate(dx, dy)` with the concrete geometry model. -/
def Geo.translate (g : Geo Geom) (dx dy : ℚ) : Geo Geom :=
  Geo.translateW (geomTranslate dx dy) g

/-- `Item.translate(dx, dy)`. -/
def Item.translate (it : Item Geom) (dx dy : ℚ) : Item Geom :=
  ⟨it.geos.map (fun geo => geo.translate dx dy), copyAttrs it.attrs⟩

/-- `Geoset.translate(dx, dy)`; the FITS-header duplication
`self.hdr.copy()` is the external header library's `hcopy`. -/
def Geoset.translate {η : Type} (hcopy : η → η) (gs : Geoset Geom η)
    (dx dy : ℚ) : Geoset Geom η :=
  ⟨gs.items.map (fun item => item.translate dx dy), copyAttrs gs.attrs,
    gs.hdr.map hcopy⟩

/-- The geometry content of a whole tree, group by group. -/
def Geoset.geomsOf {η : Type} (gs : Geoset Geom η) :
    List (List (Option Geom)) :=
  gs.items.map (fun item => item.geos.map Geo.geo)

/-- The error taxonomy of an external geometry-library call: the
`geos.TopologicalError` class that `safe_difference` catches, or any
other exception. -/
inductive GErr where
  | topological
  | other
deriving DecidableEq, Repr

/-- `_utils.clean_poly`: drop empty or zero-area parts, then repack as a
`MultiPolygon`, a single `Polygon`, or the empty polygon.  The external
area and emptiness tests are the parameters `area` and `emp`. -/
def clean_poly (area : PolyRep → ℚ) (emp : PolyRep → Bool) (g : Geom) : Geom :=
  let poly_list := (toPolyList g).filter (fun p => !(emp p) && !(decide (area p = 0)))
  if poly_list.length > 1 then .multi poly_list
  else
    match poly_list with
    | [p] => .single p
    | _ => .single emptyPoly

/-- `_utils.safe_difference`: try `poly1.difference(poly2)` (`dop`); on a
`TopologicalError` retry by subtracting each sub-polygon component of
`poly2` individually from a copy of `poly1` (the copy is the
union-with-empty `uop`); apply `clean_poly` to whatever is returned.
Exceptions other than `TopologicalError` are not caught, nor are
exceptions raised inside the retry loop. -/
def safe_difference (dop : Geom → Geom → Except GErr Geom) (uop : Geom → Geom)
    (area : PolyRep → ℚ) (emp : PolyRep → Bool) (poly1 poly2 : Geom) :
    Except GErr Geom :=
  match dop poly1 poly2 with
  | .ok poly => .ok (clean_poly area emp poly)
  | .error .topological =>
      ((toPolyList poly2).foldlM (fun poly p => dop poly (.single p))
        (uop poly1)).map (clean_poly area emp)
  | .error .other => .error .other

theorem convertTranslate_eq (p : PolyRep) (dx dy : ℚ) :
    convertTranslate p dx dy =
      ⟨translateRing dx dy p.exterior, p.interiors.map (translateRing dx dy)⟩ := by
  unfold convertTranslate
  suffices H : ∀ (hs : List (List (ℚ × ℚ))) (e : List (ℚ × ℚ))
      (acc : List (List (ℚ × ℚ))),
      hs.foldl (fun np h => holeDifference np ⟨translateRing dx dy h, []⟩) ⟨e, acc⟩
        = ⟨e, acc ++ hs.map (translateRing dx dy)⟩ by
    simpa using H p.interiors (translateRing dx dy p.exterior) []
  intro hs
  induction hs with
  | nil => intro e acc; simp
  | cons hd tl ih =>
      intro e acc
      rw [List.foldl_cons]
      have hstep : holeDifference ⟨e, acc⟩ ⟨translateRing dx dy hd, []⟩
          = ⟨e, acc ++ [translateRing dx dy hd]⟩ := rfl
      rw [hstep, ih]
      simp

theorem translateRing_comp (r : List (ℚ × ℚ)) (d1x d1y d2x d2y : ℚ) :
    translateRing d2x d2y (translateRing d1x d1y r)
      = translateRing (d1x + d2x) (d1y + d2y) r := by
  unfold translateRing
  rw [List.map_map]
  refine List.map_congr_left (fun a _ => ?_)
  simp only [Function.comp_apply, Prod.mk.injEq]
  constructor <;> ring

theorem convertTranslate_comp (p : PolyRep) (d1x d1y d2x d2y : ℚ) :
    convertTranslate (convertTranslate p d1x d1y) d2x d2y
      = convertTranslate p (d1x + d2x) (d1y + d2y) := by
  simp only [convertTranslate_eq]
  refine congrArg₂ PolyRep.mk (translateRing_comp _ _ _ _ _) ?_
  rw [List.map_map]
  exact List.map_congr_left (fun h _ => translateRing_comp h _ _ _ _)

theorem geomTranslate_comp (g : Geom) (d1x d1y d2x d2y : ℚ) :
    geomTranslate d2x d2y (geomTranslate d1x d1y g)
      = geomTranslate (d1x + d2x) (d1y + d2y) g := by
  cases g with
  | single p => simp [geomTranslate, poly_translate, convertTranslate_comp]
  | multi ps =>
      simp only [geomTranslate, poly_translate, List.map_cons, List.map_nil,
        List.map_map, Geom.multi.injEq]
      exact List.map_congr_left (fun p _ => convertTranslate_comp p _ _ _ _)

/-- C7: translating by `(dx1, dy1)` and then `(dx2, dy2)` yields the same
geometry as translating once by the summed shift, at every tree level
(`Geo`, `Item`, `Geoset`), for any header-copy behaviour `hcopy` of the
external header library.  Coordinates are modelled exactly (`ℚ`), so the
floating-point tolerance of the claim is exact equality here. -/
theorem translate_composition {η : Type} (hcopy : η → η) :
    (∀ (g : Geo Geom) (d1x d1y d2x d2y : ℚ),
      ((g.translate d1x d1y).translate d2x d2y).geo
        = (g.translate (d1x + d2x) (d1y + d2y)).geo)
    ∧ (∀ (it : Item Geom) (d1x d1y d2x d2y : ℚ),
      ((it.translate d1x d1y).translate d2x d2y).geos.map Geo.geo
        = (it.translate (d1x + d2x) (d1y + d2y)).geos.map Geo.geo)
    ∧ (∀ (gs : Geoset Geom η) (d1x d1y d2x d2y : ℚ),
      ((gs.translate hcopy d1x d1y).translate hcopy d2x d2y).geomsOf
        = (gs.translate hcopy (d1x + d2x) (d1y + d2y)).geomsOf) := by
  have hGeo : ∀ (g : Geo Geom) (d1x d1y d2x d2y : ℚ),
      ((g.translate d1x d1y).translate d2x d2y).geo
        = (g.translate (d1x + d2x) (d1y + d2y)).geo := by
    intro g d1x d1y d2x d2y
    cases hg : g.geo with
    | none => simp [Geo.translate, Geo.translateW, hg]
    | some v => simp [Geo.translate, Geo.translateW, hg, geomTranslate_comp]
  have hItem : ∀ (it : Item Geom) (d1x d1y d2x d2y : ℚ),
      ((it.translate d1x d1y).translate d2x d2y).geos.map Geo.geo
        = (it.translate (d1x + d2x) (d1y + d2y)).geos.map Geo.geo := by
    intro it d1x d1y d2x d2y
    simp only [Item.translate, List.map_map]
    exact List.map_congr_left (fun g _ => hGeo g _ _ _ _)
  refine ⟨hGeo, hItem, ?_⟩
  intro gs d1x d1y d2x d2y
  simp only [Geoset.translate, Geoset.geomsOf, List.map_map]
  refine List.map_congr_left (fun it _ => ?_)
  simpa using hItem it d1x d1y d2x d2y

/-- C8: `safe_difference` path characterization.  When the external
difference succeeds, the cleanup pass is applied to its result; when it
raises a `TopologicalError`, the difference is retried by subtracting
each sub-polygon component of the subtrahend individually from a copy of
the first operand (the union-with-empty copy `uop`), with the cleanup
pass applied to the retried result; any other external failure — either
of the first call or inside the retry loop — propagates uncaught. -/
theorem safe_difference_paths
    (dop : Geom → Geom → Except GErr Geom) (uop : Geom → Geom)
    (area : PolyRep → ℚ) (emp : PolyRep → Bool) (p1 p2 : Geom) :
    (∀ r, dop p1 p2 = .ok r →
      safe_difference dop uop area emp p1 p2 = .ok (clean_poly area emp r))
    ∧ (dop p1 p2 = .error .topological →
      safe_difference dop uop area emp p1 p2 =
        ((toPolyList p2).foldlM (fun poly p => dop poly (.single p))
          (uop p1)).map (clean_poly area emp))
    ∧ (∀ r, dop p1 p2 = .error .topological →
      (toPolyList p2).foldlM (fun poly p => dop poly (.single p)) (uop p1) = .ok r →
      safe_difference dop uop area emp p1 p2 = .ok (clean_poly area emp r))
    ∧ (∀ e, dop p1 p2 = .error .topological →
      (toPolyList p2).foldlM (fun poly p => dop poly (.single p)) (uop p1)
        = .error e →
      safe_difference dop uop area emp p1 p2 = .error e)
    ∧ (dop p1 p2 = .error .other →
      safe_difference dop uop area emp p1 p2 = .error .other) := by
  refine ⟨?_, ?_, ?_, ?_, ?_⟩
  · intro r h
    simp [safe_difference, h]
  · intro h
    simp [safe_difference, h]
  · intro r h hf
    simp [safe_difference, h, hf, Except.map]
  · intro e h hf
    simp [safe_difference, h, hf, Except.map]
  · intro h
    simp [safe_difference, h]

/-- C8 witness: the paths at concrete instantiations of the external
operations — a succeeding difference, an always-`TopologicalError`
difference (whose retry then also propagates the error), and an
other-exception difference. -/
theorem safe_difference_paths_witness :
    safe_difference (fun _ _ => .ok (.single emptyPoly)) id (fun _ => 0)
        (fun _ => false) (.single emptyPoly) (.single emptyPoly)
      = .ok (clean_poly (fun _ => 0) (fun _ => false) (.single emptyPoly))
    ∧ safe_difference (fun _ _ => .error .topological) id (fun _ => 0)
        (fun _ => false) (.single emptyPoly) (.single emptyPoly)
      = .error .topological
    ∧ safe_difference (fun _ _ => .error .other) id (fun _ => 0)
        (fun _ => false) (.single emptyPoly) (.single emptyPoly)
      = .error .other := by
  refine ⟨?_, ?_, ?_⟩
  · exact (safe_difference_paths (fun _ _ => .ok (.single emptyPoly)) id
      (fun _ => 0) (fun _ => false) (.single emptyPoly) (.single emptyPoly)).1
      (.single emptyPoly) rfl
  · exact (safe_difference_paths (fun _ _ => .error .topological) id
      (fun _ => 0) (fun _ => false) (.single emptyPoly)
      (.single emptyPoly)).2.2.2.1 .topological rfl (by rfl)
  · exact (safe_difference_paths (fun _ _ => .error .other) id
      (fun _ => 0) (fun _ => false) (.single emptyPoly)
      (.single emptyPoly)).2.2.2.2 rfl

/-- An XML element: tag, optional text, child elements.  `τ` is the type
of text payloads (in the running system, `String`; the external `json` /
`wkt` / FITS-header codecs are parameters over it). -/
inductive XmlNode (τ : Type) where
  | elem (tag : String) (text : Option τ) (children : List (XmlNode τ))

def XmlNode.text {τ : Type} : XmlNode τ → Option τ
  | .elem _ t _ => t

def XmlNode.children {τ : Type} : XmlNode τ → List (XmlNode τ)
  | .elem _ _ c => c

/-- The `if x is not None: x = parse(x)` decode idiom: absent text decodes
to `None`; present text must parse (a parse exception propagates, `none`
overall). -/
def decodeOptText {α τ : Type} (dec : τ → Option α) : Option τ → Option (Option α)
  | none => some none
  | some t => (dec t).map some

/-- A `for`-loop that appends one decoded child per iteration, with a
decode exception propagating: sequential fallible map. -/
def optMapM {α β : Type} (f : α → Option β) : List α → Option (List β)
  | [] => some []
  | a :: l => do
      let b ← f a
      let bs ← optMapM f l
      some (b :: bs)

namespace GeosetXml

variable {γ η τ : Type}

/-- The `GEO` element built by `geosetxml.toxml` (lines 206-215): an
`ATTR` child (text = JSON-encoded attribute pairs when present) and a
`WKT` child (text = WKT dump when geometry present). -/
def geoToxml (jd : List (String × Scalar) → τ) (wd : γ → τ) (geo : Geo γ) :
    XmlNode τ :=
  .elem "GEO" none
    [.elem "ATTR" (geo.attrs.map jd) [], .elem "WKT" (geo.geo.map wd) []]

/-- The `ITEM` element built by `geosetxml.toxml` (lines 199-204). -/
def itemToxml (jd : List (String × Scalar) → τ) (wd : γ → τ) (item : Item γ) :
    XmlNode τ :=
  .elem "ITEM" none
    (.elem "ATTR" (item.attrs.map jd) [] :: item.geos.map (geoToxml jd wd))

/-- `geosetxml.toxml`: the `GEOSET` element — leading `ATTR` and `HEADER`
children, then one `ITEM` element per group. -/
def toxml (jd : List (String × Scalar) → τ) (hs : η → τ) (wd : γ → τ)
    (geoset : Geoset γ η) : XmlNode τ :=
  .elem "GEOSET" none
    (.elem "ATTR" (geoset.attrs.map jd) []
      :: .elem "HEADER" (geoset.hdr.map hs) []
      :: geoset.items.map (itemToxml jd wd))

/-- The `GEO` decode of `geosetxml.fromxml` (lines 93-101): attributes
from child 0 (`OrderedDict(json.loads(...))`), geometry from child 1
(`wkt.loads`). -/
def geoFromxml (jl : τ → Option (List (String × Scalar))) (wl : τ → Option γ)
    (x : XmlNode τ) : Option (Geo γ) :=
  match x.children with
  | a0 :: g1 :: _ => do
      let attrs ← decodeOptText (fun t => (jl t).map odFromPairs) a0.text
      let geo ← decodeOptText wl g1.text
      some ⟨geo, attrs⟩
  | _ => none

/-- The `ITEM` decode of `geosetxml.fromxml` (lines 86-103): attributes
from child 0, one `Geo` per remaining child. -/
def itemFromxml (jl : τ → Option (List (String × Scalar))) (wl : τ → Option γ)
    (x : XmlNode τ) : Option (Item γ) :=
  match x.children with
  | a0 :: geos => do
      let attrs ← decodeOptText (fun t => (jl t).map odFromPairs) a0.text
      let gs ← optMapM (geoFromxml jl wl) geos
      some ⟨gs, attrs⟩
  | _ => none

/-- `geosetxml.fromxml`: attributes from child 0, header from child 1
(`fits.Header.fromstring`), one `Item` per remaining child. -/
def fromxml (jl : τ → Option (List (String × Scalar))) (hp : τ → Option η)
    (wl : τ → Option γ) (x : XmlNode τ) : Option (Geoset γ η) :=
  match x.children with
  | a0 :: h1 :: items => do
      let attrs ← decodeOptText (fun t => (jl t).map odFromPairs) a0.text
      let hdr ← decodeOptText hp h1.text
      let its ← optMapM (itemFromxml jl wl) items
      some ⟨its, attrs, hdr⟩
  | _ => none

/-- Semantic equality of primitives: geometries compared by WKT string
(`wd`), attribute maps key-by-key. -/
def geoSemEq (wd : γ → τ) (a b : Geo γ) : Prop :=
  a.geo.map wd = b.geo.map wd ∧ a.attrs = b.attrs

/-- Semantic equality of groups. -/
def itemSemEq (wd : γ → τ) (a b : Item γ) : Prop :=
  List.Forall₂ (geoSemEq wd) a.geos b.geos ∧ a.attrs = b.attrs

/-- Semantic equality of roots: groups pairwise, attribute maps
key-by-key, headers by canonical string form (`hs`). -/
def geosetSemEq (wd : γ → τ) (hs : η → τ) (a b : Geoset γ η) : Prop :=
  List.Forall₂ (itemSemEq wd) a.items b.items
    ∧ a.attrs = b.attrs ∧ a.hdr.map hs = b.hdr.map hs

/-- An attribute map (if present) has distinct keys, as an `OrderedDict`
always does. -/
def attrsNodup : Attrs → Prop
  | none => True
  | some l => (l.map Prod.fst).Nodup

/-- Every attribute map in the tree has distinct keys. -/
def geosetWF (g : Geoset γ η) : Prop :=
  attrsNodup g.attrs
    ∧ ∀ it ∈ g.items, attrsNodup it.attrs ∧ ∀ ge ∈ it.geos, attrsNodup ge.attrs

theorem decode_attrs_roundtrip (jd : List (String × Scalar) → τ)
    (jl : τ → Option (List (String × Scalar)))
    (hJ : ∀ l, jl (jd l) = some l) (a : Attrs) (ha : attrsNodup a) :
    decodeOptText (fun t => (jl t).map odFromPairs) (a.map jd) = some a := by
  cases a with
  | none => rfl
  | some l =>
      simp only [Option.map_some, decodeOptText, hJ, Option.map]
      rw [odFromPairs_nodup l ha]

theorem geo_roundtrip (jd : List (String × Scalar) → τ) (wd : γ → τ)
    (jl : τ → Option (List (String × Scalar))) (wl : τ → Option γ)
    (hJ : ∀ l, jl (jd l) = some l)
    (hW : ∀ g : γ, ∃ g', wl (wd g) = some g' ∧ wd g' = wd g)
    (ge : Geo γ) (hnd : attrsNodup ge.attrs) :
    ∃ ge', geoFromxml jl wl (geoToxml jd wd ge) = some ge' ∧ geoSemEq wd ge ge' := by
  cases hg : ge.geo with
  | none =>
      refine ⟨⟨none, ge.attrs⟩, ?_, ?_⟩
      · simp only [geoFromxml, geoToxml, XmlNode.children, XmlNode.text, hg,
          Option.map_none]
        rw [decode_attrs_roundtrip jd jl hJ ge.attrs hnd]
        rfl
      · exact ⟨by simp [hg], rfl⟩
  | some v =>
      obtain ⟨v', hv', hwd⟩ := hW v
      refine ⟨⟨some v', ge.attrs⟩, ?_, ?_⟩
      · simp only [geoFromxml, geoToxml, XmlNode.children, XmlNode.text, hg,
          Option.map_some]
        rw [decode_attrs_roundtrip jd jl hJ ge.attrs hnd]
        simp [decodeOptText, hv']
      · exact ⟨by simp [hg, hwd], rfl⟩

theorem geos_roundtrip (jd : List (String × Scalar) → τ) (wd : γ → τ)
    (jl : τ → Option (List (String × Scalar))) (wl : τ → Option γ)
    (hJ : ∀ l, jl (jd l) = some l)
    (hW : ∀ g : γ, ∃ g', wl (wd g) = some g' ∧ wd g' = wd g)
    (geos : List (Geo γ)) (hnd : ∀ ge ∈ geos, attrsNodup ge.attrs) :
    ∃ gs', optMapM (geoFromxml jl wl) (geos.map (geoToxml jd wd)) = some gs'
      ∧ List.Forall₂ (geoSemEq wd) geos gs' := by
  induction geos with
  | nil => exact ⟨[], rfl, List.Forall₂.nil⟩
  | cons hd tl ih =>
      obtain ⟨hd', hhd, hsem⟩ := geo_roundtrip jd wd jl wl hJ hW hd
        (hnd hd (List.mem_cons_self hd tl))
      obtain ⟨tl', htl, hsems⟩ := ih (fun ge hge => hnd ge (List.mem_cons_of_mem hd hge))
      refine ⟨hd' :: tl', ?_, List.Forall₂.cons hsem hsems⟩
      simp [optMapM, hhd, htl]

theorem item_roundtrip (jd : List (String × Scalar) → τ) (wd : γ → τ)
    (jl : τ → Option (List (String × Scalar))) (wl : τ → Option γ)
    (hJ : ∀ l, jl (jd l) = some l)
    (hW : ∀ g : γ, ∃ g', wl (wd g) = some g' ∧ wd g' = wd g)
    (it : Item γ) (hnd : attrsNodup it.attrs)
    (hndg : ∀ ge ∈ it.geos, attrsNodup ge.attrs) :
    ∃ it', itemFromxml jl wl (itemToxml jd wd it) = some it'
      ∧ itemSemEq wd it it' := by
  obtain ⟨gs', hgs, hsems⟩ := geos_roundtrip jd wd jl wl hJ hW it.geos hndg
  refine ⟨⟨gs', it.attrs⟩, ?_, hsems, rfl⟩
  simp only [itemFromxml, itemToxml, XmlNode.children, XmlNode.text]
  rw [decode_attrs_roundtrip jd jl hJ it.attrs hnd]
  simp [hgs]

theorem items_roundtrip (jd : List (String × Scalar) → τ) (wd : γ → τ)
    (jl : τ → Option (List (String × Scalar))) (wl : τ → Option γ)
    (hJ : ∀ l, jl (jd l) = some l)
    (hW : ∀ g : γ, ∃ g', wl (wd g) = some g' ∧ wd g' = wd g)
    (items : List (Item γ))
    (hnd : ∀ it ∈ items, attrsNodup it.attrs ∧ ∀ ge ∈ it.geos, attrsNodup ge.attrs) :
    ∃ its', optMapM (itemFromxml jl wl) (items.map (itemToxml jd wd)) = some its'
      ∧ List.Forall₂ (itemSemEq wd) items its' := by
  induction items with
  | nil => exact ⟨[], rfl, List.Forall₂.nil⟩
  | cons hd tl ih =>
      obtain ⟨hd', hhd, hsem⟩ := item_roundtrip jd wd jl wl hJ hW hd
        (hnd hd (List.mem_cons_self hd tl)).1
        (hnd hd (List.mem_cons_self hd tl)).2
      obtain ⟨tl', htl, hsems⟩ :=
        ih (fun it hit => hnd it (List.mem_cons_of_mem hd hit))
      refine ⟨hd' :: tl', ?_, List.Forall₂.cons hsem hsems⟩
      simp [optMapM, hhd, htl]

/-- C2: structured-XML round-trip.  For any Root with non-empty items, a
non-empty attribute map and a header, decoding the encoding
(`fromxml` after `toxml`) succeeds and yields a Root semantically equal
to the original: attribute maps key-by-key, geometries by WKT string,
header by canonical string — for every behaviour of the external `json`,
WKT and header codecs satisfying their own parse-of-dump contracts. -/
theorem geosetxml_roundtrip (jd : List (String × Scalar) → τ) (hs : η → τ)
    (wd : γ → τ) (jl : τ → Option (List (String × Scalar)))
    (hp : τ → Option η) (wl : τ → Option γ)
    (hJ : ∀ l, jl (jd l) = some l)
    (hH : ∀ h : η, ∃ h', hp (hs h) = some h' ∧ hs h' = hs h)
    (hW : ∀ g : γ, ∃ g', wl (wd g) = some g' ∧ wd g' = wd g)
    (g : Geoset γ η) (hwf : geosetWF g)
    (hitems : g.items ≠ []) (hattrs : g.attrs ≠ none)
    (hanon : ∀ l, g.attrs = some l → l ≠ []) (hhdr : g.hdr ≠ none) :
    ∃ g', fromxml jl hp wl (toxml jd hs wd g) = some g'
      ∧ geosetSemEq wd hs g g' := by
  obtain ⟨hnd0, hndi⟩ := hwf
  obtain ⟨its', hits, hsems⟩ := items_roundtrip jd wd jl wl hJ hW g.items hndi
  cases hh : g.hdr with
  | none => exact absurd hh hhdr
  | some hv =>
      obtain ⟨hv', hhv, hshv⟩ := hH hv
      refine ⟨⟨its', g.attrs, some hv'⟩, ?_, hsems, rfl, by simp [hh, hshv]⟩
      simp only [fromxml, toxml, XmlNode.children, XmlNode.text]
      rw [decode_attrs_roundtrip jd jl hJ g.attrs hnd0]
      simp [hh, decodeOptText, hhv, hits]

end GeosetXml

/-- Concrete text-payload type for exercising the XML round-trip: each
payload kind carries its decoded value, so the codec contracts hold
definitionally. -/
inductive DemoText where
  | jsonT (l : List (String × Scalar))
  | hdrT (n : ℕ)
  | wktT (n : ℕ)
deriving DecidableEq, Repr

def demoJl : DemoText → Option (List (String × Scalar))
  | .jsonT l => some l
  | _ => none

def demoHp : DemoText → Option ℕ
  | .hdrT n => some n
  | _ => none

def demoWl : DemoText → Option ℕ
  | .wktT n => some n
  | _ => none

/-- C2 witness: the round-trip at a concrete one-item Root with
attributes, geometry and header, under the concrete demo codecs. -/
theorem geosetxml_roundtrip_witness :
    ∃ g', GeosetXml.fromxml demoJl demoHp demoWl
        (GeosetXml.toxml DemoText.jsonT DemoText.hdrT DemoText.wktT
          (Geoset.mk [Item.mk [Geo.mk (some 7) (some [("a", Scalar.int 1)])]
            (some [("k", Scalar.str "v")])]
            (some [("c", Scalar.bool true)]) (some 3)))
      = some g'
      ∧ GeosetXml.geosetSemEq DemoText.wktT DemoText.hdrT
          (Geoset.mk [Item.mk [Geo.mk (some 7) (some [("a", Scalar.int 1)])]
            (some [("k", Scalar.str "v")])]
            (some [("c", Scalar.bool true)]) (some 3)) g' := by
  refine GeosetXml.geosetxml_roundtrip DemoText.jsonT DemoText.hdrT DemoText.wktT
    demoJl demoHp demoWl (fun l => rfl) (fun h => ⟨h, rfl, rfl⟩)
    (fun g => ⟨g, rfl, rfl⟩) _ ?_ (by simp) (by simp) (fun l hl => by
      simp only [Option.some.injEq] at hl
      simp [← hl]) (by simp)
  refine ⟨by simp [GeosetXml.attrsNodup], ?_⟩
  intro it hit
  simp only [List.mem_singleton] at hit
  subst hit
  refine ⟨by simp [GeosetXml.attrsNodup], ?_⟩
  intro ge hge
  simp only [List.mem_singleton] at hge
  subst hge
  simp [GeosetXml.attrsNodup]

/-- Whitespace for Python `str.strip()` / numeric-parse stripping. -/
def isPySpace (c : Char) : Bool :=
  c = ' ' || c = '\t' || c = '\n' || c = '\r' || c = '\x0b' || c = '\x0c'

/-- Strip leading and trailing whitespace. -/
def stripWS (l : List Char) : List Char :=
  ((l.dropWhile isPySpace).reverse.dropWhile isPySpace).reverse

/-- Value of a non-empty all-digit run. -/
def digitsToNat (l : List Char) : ℕ :=
  l.foldl (fun acc c => 10 * acc + (c.toNat - 48)) 0

/-- Split off one optional leading `+`/`-` sign; `true` means negative. -/
def splitSign : List Char → Bool × List Char
  | '+' :: rest => (false, rest)
  | '-' :: rest => (true, rest)
  | l => (false, l)

/-- Python `int(str)`: optional surrounding whitespace, optional sign,
one or more decimal digits, nothing else; otherwise `ValueError`. -/
def pyIntParse (s : String) : Option ℤ :=
  let l := stripWS s.toList
  let sg := splitSign l
  if sg.2 ≠ [] ∧ sg.2.all Char.isDigit then
    some (if sg.1 then -(digitsToNat sg.2 : ℤ) else (digitsToNat sg.2 : ℤ))
  else none

/-- The digits-dot-digits mantissa of a float literal (either side of the
dot may be empty, not both). -/
def parseMantissa (m : List Char) : Option ℚ :=
  match m.splitOn '.' with
  | [i] =>
      if i ≠ [] ∧ i.all Char.isDigit then some (mkRat (digitsToNat i) 1) else none
  | [i, f] =>
      if (i ≠ [] ∨ f ≠ []) ∧ i.all Char.isDigit ∧ f.all Char.isDigit then
        some (mkRat (digitsToNat i * 10 ^ f.length + digitsToNat f) (10 ^ f.length))
      else none
  | _ => none

/-- Scale a rational by `10 ^ e` (the exponent part of a float literal),
in kernel-evaluable form. -/
def applyExp (q : ℚ) (e : ℤ) : ℚ :=
  if 0 ≤ e then mkRat (q.num * (10 : ℤ) ^ e.toNat) q.den
  else mkRat q.num (q.den * 10 ^ (-e).toNat)

/-- The signed-integer exponent after `e`. -/
def parseExp (ex : List Char) : Option ℤ :=
  let sg := splitSign ex
  if sg.2 ≠ [] ∧ sg.2.all Char.isDigit then
    some (if sg.1 then -(digitsToNat sg.2 : ℤ) else (digitsToNat sg.2 : ℤ))
  else none

/-- Python `float(str)`: optional surrounding whitespace, optional sign,
then a decimal mantissa with optional `e`-exponent, or the literals
`inf` / `infinity` / `nan` (case-insensitive). -/
def pyFloatParse (s : String) : Option PyFloat :=
  let l := (stripWS s.toList).map Char.toLower
  let sg := splitSign l
  if sg.2 = "inf".toList ∨ sg.2 = "infinity".toList then
    some (.infinite sg.1)
  else if sg.2 = "nan".toList then some .nan
  else
    let fin : Option ℚ :=
      match sg.2.splitOn 'e' with
      | [m] => parseMantissa m
      | [m, ex] => do
          let q ← parseMantissa m
          let e ← parseExp ex
          some (applyExp q e)
      | _ => none
    fin.map (fun q => .finite (if sg.1 then Rat.neg q else q))

/-- The `try: int … except: try: float … except: 'True'/'False' …` decode
ladder of `polylistxml.get_XML_attrs` (lines 103-114). -/
def inferVal (s : String) : Scalar :=
  match pyIntParse s with
  | some n => .int n
  | none =>
      match pyFloatParse s with
      | some f => .float f
      | none =>
          if s = "True" then .bool true
          else if s = "False" then .bool false
          else .str s

/-- A legacy (polylist) XML element: native XML attributes hold the
attribute strings. -/
inductive PElem where
  | mk (tag : String) (attrib : List (String × String)) (text : Option String)
      (children : List PElem)

def PElem.attrib : PElem → List (String × String)
  | .mk _ a _ _ => a

def PElem.text : PElem → Option String
  | .mk _ _ t _ => t

def PElem.children : PElem → List PElem
  | .mk _ _ _ c => c

namespace PolylistXml

/-- `polylistxml.get_XML_attrs`: decode every native XML attribute via
the inference ladder; an element with no attributes yields `None`, not an
empty map. -/
def get_XML_attrs (e : PElem) : Option (List (String × Scalar)) :=
  let attr_list := e.attrib.map (fun kv => (kv.1, inferVal kv.2))
  if attr_list.isEmpty then none else some (odFromPairs attr_list)

/-- One `POLY` element decode of `polylistxml.fromxml` (lines 154-160):
attributes from native XML attributes, geometry from the element text via
`wkt.loads` (`wl`). -/
def polyFromxml {γ : Type} (wl : String → Option γ) (p : PElem) :
    Option (Geo γ) :=
  let attrs := get_XML_attrs p
  match p.text with
  | none => some ⟨none, attrs⟩
  | some t => (wl t).map (fun g => ⟨some g, attrs⟩)

/-- One `ITEM` element decode of `polylistxml.fromxml` (lines 149-162). -/
def itemFromxml {γ : Type} (wl : String → Option γ) (it : PElem) :
    Option (Item γ) := do
  let gs ← optMapM (polyFromxml wl) it.children
  some ⟨gs, get_XML_attrs it⟩

/-- `polylistxml.fromxml`: root attributes from the root element's native
XML attributes, header keyword/value pairs from the first child's native
XML attributes (fed to FITS-header construction, modelled from the spec
as keeping the keyword/value pairs), one `Item` per remaining child. -/
def fromxml {γ : Type} (wl : String → Option γ) (x : PElem) :
    Option (Geoset γ (List (String × Scalar))) :=
  match x.children with
  | c0 :: rest => do
      let its ← optMapM (itemFromxml wl) rest
      some ⟨its, get_XML_attrs x, get_XML_attrs c0⟩
  | [] => none

end PolylistXml

/-- C4: legacy-XML attribute type inference follows the fixed trial order
— integer parse, then float parse, then the literals `"True"`/`"False"`
as booleans, else the string is kept — and in particular the string
`"True"` always decodes to the boolean `true`. -/
theorem legacy_type_inference :
    (∀ (s : String) (n : ℤ), pyIntParse s = some n → inferVal s = .int n)
    ∧ (∀ (s : String) (f : PyFloat), pyIntParse s = none →
        pyFloatParse s = some f → inferVal s = .float f)
    ∧ (∀ s : String, pyIntParse s = none → pyFloatParse s = none →
        s = "True" → inferVal s = .bool true)
    ∧ (∀ s : String, pyIntParse s = none → pyFloatParse s = none →
        s = "False" → inferVal s = .bool false)
    ∧ (∀ s : String, pyIntParse s = none → pyFloatParse s = none →
        s ≠ "True" → s ≠ "False" → inferVal s = .str s)
    ∧ inferVal "True" = .bool true := by
  refine ⟨?_, ?_, ?_, ?_, ?_, ?_⟩
  · intro s n h
    simp [inferVal, h]
  · intro s f hi hf
    simp [inferVal, hi, hf]
  · intro s hi hf hT
    subst hT
    simp [inferVal, hi, hf]
  · intro s hi hf hF
    subst hF
    simp [inferVal, hi, hf]
  · intro s hi hf hT hF
    simp [inferVal, hi, hf, hT, hF]
  · decide

/-- C4 witness: the trial order at concrete attribute strings. -/
theorem legacy_type_inference_witness :
    inferVal "42" = .int 42
    ∧ inferVal "2.5" = .float (.finite (mkRat 5 2))
    ∧ inferVal "False" = .bool false
    ∧ inferVal "spam" = .str "spam" := by
  refine ⟨?_, ?_, ?_, ?_⟩
  · exact legacy_type_inference.1 "42" 42 (by decide)
  · exact legacy_type_inference.2.1 "2.5" (.finite (mkRat 5 2)) (by decide) (by decide)
  · exact legacy_type_inference.2.2.2.1 "False" (by decide) (by decide) rfl
  · exact legacy_type_inference.2.2.2.2.1 "spam" (by decide) (by decide)
      (by decide) (by decide)

/-- C10: an element with zero native XML attributes decodes to the absent
marker `None`, never an empty map; hence in a decoded polylist tree a
root serialized without attributes has `attrs = None`, a first child
without attributes gives `hdr = None`, and an `ITEM` without attributes
gives a group with `attrs = None`. -/
theorem legacy_empty_attrs_decode {γ : Type} :
    (∀ e : PElem, e.attrib = [] → PolylistXml.get_XML_attrs e = none)
    ∧ (∀ (wl : String → Option γ) (x c0 : PElem) (rest : List PElem)
        (g : Geoset γ (List (String × Scalar))),
        x.children = c0 :: rest → PolylistXml.fromxml wl x = some g →
        (x.attrib = [] → g.attrs = none) ∧ (c0.attrib = [] → g.hdr = none))
    ∧ (∀ (wl : String → Option γ) (it : PElem) (i : Item γ),
        it.attrib = [] → PolylistXml.itemFromxml wl it = some i →
        i.attrs = none) := by
  have hga : ∀ e : PElem, e.attrib = [] → PolylistXml.get_XML_attrs e = none := by
    intro e he
    simp [PolylistXml.get_XML_attrs, he]
  refine ⟨hga, ?_, ?_⟩
  · intro wl x c0 rest g hch hfx
    simp only [PolylistXml.fromxml, hch] at hfx
    cases ho : optMapM (PolylistXml.itemFromxml wl) rest with
    | none =>
        rw [ho] at hfx
        simp at hfx
    | some its =>
        rw [ho] at hfx
        simp only [Option.bind_eq_bind, Option.some_bind, Option.some.injEq] at hfx
        subst hfx
        exact ⟨fun hx => hga x hx, fun hc => hga c0 hc⟩
  · intro wl it i hat hfx
    simp only [PolylistXml.itemFromxml] at hfx
    cases ho : optMapM (PolylistXml.polyFromxml wl) it.children with
    | none =>
        rw [ho] at hfx
        simp at hfx
    | some gs =>
        rw [ho] at hfx
        simp only [Option.bind_eq_bind, Option.some_bind, Option.some.injEq] at hfx
        subst hfx
        exact hga it hat

/-- C10 witness: a concrete attribute-less element decodes to `None`, and
a concrete polylist tree without native attributes decodes to a root with
absent attributes and absent header. -/
theorem legacy_empty_attrs_decode_witness :
    PolylistXml.get_XML_attrs (PElem.mk "POLY" [] (some "t") []) = none
    ∧ ((Geoset.mk [] none none : Geoset Unit (List (String × Scalar))).attrs = none
      ∧ (Geoset.mk [] none none : Geoset Unit (List (String × Scalar))).hdr = none) := by
  refine ⟨(legacy_empty_attrs_decode (γ := Unit)).1 (PElem.mk "POLY" [] (some "t") []) rfl, ?_⟩
  have h := (legacy_empty_attrs_decode (γ := Unit)).2.1 (fun _ => none)
    (PElem.mk "POLYLIST" [] none [PElem.mk "HEADER" [] none []])
    (PElem.mk "HEADER" [] none []) [] (Geoset.mk [] none none) rfl rfl
  exact ⟨h.1 rfl, h.2 rfl⟩

/-- `'{'` (written via its code point to keep brace characters out of
string literals). -/
def lbrace : Char := Char.ofNat 123

/-- `'}'`. -/
def rbrace : Char := Char.ofNat 125

/-- `s.split('\n')[0]`: the characters before the first newline. -/
def beforeNewline (l : List Char) : List Char :=
  l.takeWhile (fun c => c ≠ '\n')

/-- `s.partition(c)[-1]`: the characters after the first occurrence of
`c`, or the empty string when `c` is absent. -/
def pyPartitionAfter (c : Char) (l : List Char) : List Char :=
  (l.dropWhile (fun x => x ≠ c)).drop 1

/-- `s.split('#')[-1]`: the characters after the last `'#'`, or the whole
string when absent. -/
def afterLastHash (l : List Char) : List Char :=
  (l.reverse.takeWhile (fun c => c ≠ '#')).reverse

/-- `pat in s`: substring containment. -/
def hasSubstr (pat l : List Char) : Bool :=
  (List.range (l.length + 1)).any (fun i => pat.isPrefixOf (l.drop i))

/-- `s.split(pat)[-1]`: the suffix after the last occurrence of `pat`, or
the whole string when `pat` does not occur. -/
def afterLastMatch (pat l : List Char) : List Char :=
  let idxs := (List.range (l.length + 1)).filter (fun i => pat.isPrefixOf (l.drop i))
  match idxs.getLast? with
  | some i => l.drop (i + pat.length)
  | none => l

/-- `s.rsplit(c, 1)` when it yields two pieces (no occurrence of `c`
makes the two-way unpacking in the source raise). -/
def rsplit1 (ch : Char) (l : List Char) : Option (List Char × List Char) :=
  if l.contains ch then
    let after := (l.reverse.takeWhile (fun c => c ≠ ch)).reverse
    some (l.take (l.length - after.length - 1), after)
  else none

/-- Indices of the occurrences of `c` (the `[i for i in range(len(s)) if
s[i] == '=']` enumeration). -/
def charPositions (c : Char) (l : List Char) : List ℕ :=
  (List.range l.length).filter (fun i => l.getD i ' ' = c)

/-- Strip a leading-and-trailing `"…"` or `{…}` pair from a value
(`val[1:-1]`); an empty value makes `val[0]` in the source raise. -/
def stripQuoted (val : List Char) : Option (List Char) :=
  match val with
  | [] => none
  | v =>
      if (v.head? = some '"' ∧ v.getLast? = some '"')
          ∨ (v.head? = some lbrace ∧ v.getLast? = some rbrace) then
        some ((v.drop 1).dropLast)
      else some v

/-- Whitespace-run splitter (`str.split()` with no argument): maximal
non-space runs, no empty pieces. -/
def splitWSAux : List Char → List Char → List (List Char)
  | [], acc => if acc.isEmpty then [] else [acc.reverse]
  | c :: rest, acc =>
      if isPySpace c then
        if acc.isEmpty then splitWSAux rest []
        else acc.reverse :: splitWSAux rest []
      else splitWSAux rest (c :: acc)

def pySplitWS (l : List Char) : List (List Char) :=
  splitWSAux l []

/-- `ds9regfile.read.parse_ds9_attrs` (lines 46-61): pad with junk words,
cut the string at every `'='`, right-split each segment at its last
space into value-then-key, strip quoting, and pair each key with the
following segment's value. -/
def parse_ds9_attrs (attrstr : List Char) (global_attrs : Bool) :
    Option (List (List Char × List Char)) := do
  let s1 := attrstr ++ (" junk").toList
  let s := if global_attrs then s1 else ("junk ").toList ++ s1
  let js : List ℕ := 0 :: (charPositions '=' s ++ [s.length - 1])
  let segs := js.zip js.tail
  let kvs ← optMapM (fun (p : ℕ × ℕ) => do
      let seg := (s.take p.2).drop (p.1 + 1)
      let vk ← rsplit1 ' ' seg
      let v ← stripQuoted vk.1
      some (vk.2, v)) segs
  some ((kvs.map Prod.fst).dropLast.zip ((kvs.map Prod.snd).drop 1))

/-- The tag-extraction loop of `ds9regfile.read` (lines 103-112): each
`tag={item N}`-style pair updates the corresponding index; the loop
starts from the values left over from previous lines. -/
def applyTags (tags : List (List Char × List Char))
    (i j k : Option ℤ) : Option (Option ℤ × Option ℤ × Option ℤ) :=
  match tags with
  | [] => some (i, j, k)
  | (_, val) :: rest =>
      match pySplitWS val with
      | [tag, nchars] => do
          let n ← pyIntParse (String.mk nchars)
          if tag = ("item").toList then applyTags rest (some n) j k
          else if tag = ("geo").toList then applyTags rest i (some n) k
          else if tag = ("poly").toList then applyTags rest i j (some n)
          else applyTags rest i j k
      | _ => none

/-- `float(w)` as used on coordinate substrings: the parse must yield a
finite value to land in an exact-coordinate polygon. -/
def pyFloatQ (s : String) : Option ℚ :=
  match pyFloatParse s with
  | some (.finite q) => some q
  | _ => none

/-- `zip(xy[0::2], xy[1::2])`: consecutive pairs (a trailing odd element
is dropped by the zip, as in the source). -/
def unflattenPairs : List ℚ → List (ℚ × ℚ)
  | x :: y :: rest => (x, y) :: unflattenPairs rest
  | _ => []

/-- `np.ravel` of a coordinate array: the flat x,y,x,y,… sequence. -/
def flattenPairs (l : List (ℚ × ℚ)) : List ℚ :=
  l.flatMap (fun p => [p.1, p.2])

/-- Decimal digit characters of `n`, most significant first (structural
fuel recursion so that it evaluates in the kernel). -/
def natDigitsAux : ℕ → ℕ → List Char → List Char
  | 0, _, acc => acc
  | fuel + 1, n, acc =>
      if n = 0 then acc
      else natDigitsAux fuel (n / 10) (Char.ofNat (48 + n % 10) :: acc)

def natDigits (n : ℕ) : List Char :=
  if n = 0 then ['0'] else natDigitsAux (n + 1) n []

/-- Left-pad a fractional digit run to the 15 places of `'.15f'`. -/
def padZeros15 (l : List Char) : List Char :=
  List.replicate (15 - l.length) '0' ++ l

/-- `'{0:.15f}'.format(q)`: round to 15 decimal places and render in
fixed-point form.  Coordinates are modelled exactly in `ℚ`; this is the
format's exact-decimal behaviour (binary-double sub-ULP effects are not
representable in the model). -/
def fmtFixed15Chars (q : ℚ) : List Char :=
  let n : ℤ := Int.fdiv (2 * q.num * 10 ^ 15 + (q.den : ℤ)) (2 * (q.den : ℤ))
  let m := n.natAbs
  let ip := m / 10 ^ 15
  let fp := m % 10 ^ 15
  (if n < 0 then ['-'] else []) ++ natDigits ip ++ '.' :: padZeros15 (natDigits fp)

def fmtFixed15 (q : ℚ) : String :=
  String.mk (fmtFixed15Chars q)

/-- `sep.join(parts)`. -/
def joinSep (sep : Char) : List (List Char) → List Char
  | [] => []
  | [p] => p
  | p :: rest => p ++ sep :: joinSep sep rest

/-- `','.join(fmt.format(i) for i in np.ravel(xy))`. -/
def joinChars (qs : List ℚ) : List Char :=
  joinSep ',' (qs.map fmtFixed15Chars)

/-- Geometry as assembled by the region-text reader: the syntax of the
external geometry-library calls it makes (`geometry.Polygon` on a parsed
vertex list, `union`, `difference`). -/
inductive DGeom where
  | poly (ring : List (ℚ × ℚ))
  | union (a b : DGeom)
  | diff (a b : DGeom)
deriving DecidableEq, Repr

/-- Rewrite the last element of a list in place (the Python locals
`item` / `geo` of `ds9regfile.read` always denote the most recently
appended group / primitive). -/
def modifyLast {α : Type} (f : α → α) : List α → List α
  | [] => []
  | [a] => [f a]
  | a :: rest => a :: modifyLast f rest

/-- One parsed, fully tagged polygon line: the `(item, geo, poly)`
indices, the background/hole marker, and the polygon built from the
vertex list. -/
structure TaggedLine where
  i : ℤ
  j : ℤ
  k : ℤ
  isHole : Bool
  poly : DGeom
deriving DecidableEq, Repr

/-- The reconstruction state threaded between polygon lines: the groups
built so far and the previous line's tag triple (`i0, j0, k0`, initially
the unset sentinel `None`). -/
structure RState where
  items : List (Item DGeom)
  i0 : Option ℤ
  j0 : Option ℤ
  k0 : Option ℤ
deriving Repr

/-- The per-line reconstruction step of `ds9regfile.read` (lines
114-125): if `i` differs from the previous item index, append a fresh
`Item` wrapping a fresh `Geo`; else if `j` differs, append a fresh `Geo`
to the current (last) item; else if `k` differs, union the polygon into
the current (last) geo; else if the line is a background/hole line,
subtract the polygon from the current geo; finally remember the triple. -/
def readStep (st : RState) (ln : TaggedLine) : RState :=
  let items :=
    if some ln.i ≠ st.i0 then
      st.items ++ [mkItem (SeqArg.single ⟨some ln.poly, none⟩) none]
    else if some ln.j ≠ st.j0 then
      modifyLast (fun it => ⟨it.geos ++ [⟨some ln.poly, none⟩], it.attrs⟩) st.items
    else if some ln.k ≠ st.k0 then
      modifyLast (fun it =>
        ⟨modifyLast (fun g => ⟨g.geo.map (fun x => DGeom.union x ln.poly), g.attrs⟩)
          it.geos, it.attrs⟩) st.items
    else if ln.isHole then
      modifyLast (fun it =>
        ⟨modifyLast (fun g => ⟨g.geo.map (fun x => DGeom.diff x ln.poly), g.attrs⟩)
          it.geos, it.attrs⟩) st.items
    else st.items
  ⟨items, some ln.i, some ln.j, some ln.k⟩

/-- The whole `ds9regfile.read` loop state: the growing `Geoset` content,
the previous tag triple, and the `i`/`j`/`k` locals that persist across
lines. -/
structure DS9State where
  items : List (Item DGeom)
  attrs : Attrs
  i0 : Option ℤ
  j0 : Option ℤ
  k0 : Option ℤ
  ci : Option ℤ
  cj : Option ℤ
  ck : Option ℤ
deriving Repr

def ds9InitState : DS9State :=
  ⟨[], none, none, none, none, none, none, none⟩

/-- The `polygon(...)` branch of the `ds9regfile.read` line loop (lines
87-125): split off the parenthesized coordinate list, parse it into a
polygon, detect the `background` marker, extract the tag triple, and run
the reconstruction step. -/
def readPolyLine (st : DS9State) (l : List Char) : Option DS9State := do
  let rest := pyPartitionAfter '(' l
  let coords := rest.takeWhile (fun c => c ≠ ')')
  let attrs1 := (rest.dropWhile (fun c => c ≠ ')')).drop 1
  let coordsSp := coords.map (fun c => if c = ',' then ' ' else c)
  let attrs2 := afterLastHash attrs1
  let xy ← optMapM (fun w => pyFloatQ (String.mk w)) (pySplitWS coordsSp)
  let poly := DGeom.poly (unflattenPairs xy)
  let bg := hasSubstr ("background").toList attrs2
  let attrs3 := if bg then afterLastMatch ("background").toList attrs2 else attrs2
  let idx ← parse_ds9_attrs attrs3 false
  let tjk ← applyTags idx st.ci st.cj st.ck
  match tjk.1, tjk.2.1, tjk.2.2 with
  | some a, some b, some c =>
      let st1 := readStep ⟨st.items, st.i0, st.j0, st.k0⟩ ⟨a, b, c, bg, poly⟩
      some ⟨st1.items, st.attrs, st1.i0, st1.j0, st1.k0, some a, some b, some c⟩
  | _, _, _ => none

/-- One iteration of the `ds9regfile.read` line loop (lines 68-125), on
the newline-stripped character list: skip comments and blanks, decode
`global` attribute lines, record the coordinate-system keyword, and
reconstruct from `polygon(...)` lines. -/
def readLineL (st : DS9State) (l : List Char) : Option DS9State :=
  if ("#").toList.isPrefixOf l || l.isEmpty then some st
  else if ("global").toList.isPrefixOf l then do
    let prs ← parse_ds9_attrs l true
    some { st with attrs := some (odFromPairs (prs.map (fun p =>
      (String.mk p.1, Scalar.str (String.mk p.2))))) }
  else if l = ("physical").toList ∨ l = ("fk5").toList then
    some { st with
           attrs := some (odInsert (st.attrs.getD []) "coordsys"
             (.str (String.mk l))) }
  else if ("polygon").toList.isPrefixOf l then
    readPolyLine st l
  else some st

/-- `ds9regfile.read` on the list of file lines: fold the line loop from
the empty `Geoset(None)` and unset sentinels, then return the built
`Geoset` (region files carry no FITS header). -/
def ds9read {η : Type} (lines : List String) : Option (Geoset DGeom η) := do
  let st ← lines.foldlM (fun st line => readLineL st (beforeNewline line.toList))
    ds9InitState
  some ⟨st.items, st.attrs, none⟩

/-- `' tag={word N}'`. -/
def tagChars (w : List Char) (n : ℕ) : List Char :=
  (" tag=").toList ++ lbrace :: (w ++ ' ' :: natDigits n) ++ [rbrace]

/-- The lines emitted for one exterior sub-polygon by `ds9regfile.write`
(lines 171-184): the exterior-ring line, then one `background` line per
interior ring, all carrying the same `item`/`geo`/`poly` tags. -/
def polyLinesOf (i j k : ℕ) (subpoly : PolyRep) : List (List Char) :=
  let tags := tagChars ("item").toList i ++ tagChars ("geo").toList j
    ++ tagChars ("poly").toList k
  (("polygon(").toList ++ (joinChars (flattenPairs subpoly.exterior)
      ++ ')' :: ((" #").toList ++ tags ++ ['\n'])))
    :: subpoly.interiors.map (fun hole =>
      ("polygon(").toList ++ (joinChars (flattenPairs hole)
        ++ ')' :: ((" # background").toList ++ tags ++ ['\n'])))

/-- `ds9regfile.write` (lines 157-184) as the list of lines it writes:
the coordinate-system line first, then for each group `i`, primitive `j`
and exterior sub-polygon `k` the tagged polygon lines.  A primitive with
absent geometry makes the source raise (`poly.type` on `None`). -/
def ds9write {η : Type} (geoset : Geoset Geom η) (coordsys : Option String) :
    Option (List String) := do
  let cs := coordsys.getD "physical"
  let groups ← optMapM (fun (ip : ℕ × Item Geom) =>
      optMapM (fun (jp : ℕ × Geo Geom) => do
          let g ← jp.2.geo
          some (((toPolyList g).enum.map
            (fun kp => polyLinesOf ip.1 jp.1 kp.1 kp.2)).flatten))
        ip.2.geos.enum)
    geoset.items.enum
  some ((cs ++ "\n") :: (groups.flatten.flatten.map String.mk))

/-- The character alphabet of a formatted coordinate. -/
def goodCoordChar (c : Char) : Bool :=
  ("0123456789.-").toList.contains c

theorem digit_char_good (m : ℕ) (hm : m < 10) :
    goodCoordChar (Char.ofNat (48 + m)) = true := by
  interval_cases m <;> decide

theorem goodCoordChar_spec (c : Char) (h : goodCoordChar c = true) :
    c ≠ ')' ∧ c ≠ ',' ∧ c ≠ '(' ∧ c ≠ '#' ∧ c ≠ '\n' ∧ isPySpace c = false := by
  have hm : c ∈ ("0123456789.-").toList := by
    simpa [goodCoordChar] using h
  fin_cases hm <;> decide

theorem natDigitsAux_chars (fuel : ℕ) :
    ∀ (n : ℕ) (acc : List Char), (∀ c ∈ acc, goodCoordChar c = true) →
      ∀ c ∈ natDigitsAux fuel n acc, goodCoordChar c = true := by
  induction fuel with
  | zero => exact fun n acc hacc c hc => hacc c hc
  | succ f ih =>
      intro n acc hacc c hc
      simp only [natDigitsAux] at hc
      by_cases hn : n = 0
      · rw [if_pos hn] at hc
        exact hacc c hc
      · rw [if_neg hn] at hc
        refine ih (n / 10) _ ?_ c hc
        intro c' hc'
        rcases List.mem_cons.mp hc' with h | h
        · subst h
          exact digit_char_good _ (Nat.mod_lt _ (by norm_num))
        · exact hacc c' h

theorem natDigits_chars (n : ℕ) : ∀ c ∈ natDigits n, goodCoordChar c = true := by
  unfold natDigits
  by_cases hn : n = 0
  · rw [if_pos hn]
    intro c hc
    simp only [List.mem_singleton] at hc
    subst hc
    decide
  · rw [if_neg hn]
    exact natDigitsAux_chars (n + 1) n [] (by simp)

theorem fmt_chars (q : ℚ) : ∀ c ∈ fmtFixed15Chars q, goodCoordChar c = true := by
  intro c hc
  unfold fmtFixed15Chars padZeros15 at hc
  simp only [List.mem_append, List.mem_cons, List.mem_replicate] at hc
  rcases hc with (h | h) | h | ⟨_, rfl⟩ | h
  · split at h
    · simp only [List.mem_singleton] at h
      subst h
      decide
    · simp at h
  · exact natDigits_chars _ c h
  · subst h
    decide
  · decide
  · exact natDigits_chars _ c h

theorem fmt_ne_nil (q : ℚ) : fmtFixed15Chars q ≠ [] := by
  unfold fmtFixed15Chars
  simp

theorem joinSep_chars (P : Char → Prop) (sep : Char) (hsep : P sep) :
    ∀ parts : List (List Char), (∀ p ∈ parts, ∀ c ∈ p, P c) →
      ∀ c ∈ joinSep sep parts, P c := by
  intro parts
  induction parts with
  | nil => intro _ c hc; simp [joinSep] at hc
  | cons p rest ih =>
      intro hp c hc
      cases rest with
      | nil =>
          exact hp p (by simp) c (by simpa [joinSep] using hc)
      | cons p2 r2 =>
          simp only [joinSep, List.mem_append, List.mem_cons] at hc
          rcases hc with h | h | h
          · exact hp p (by simp) c h
          · subst h; exact hsep
          · exact ih (fun p' hp' => hp p' (List.mem_cons_of_mem _ hp')) c
              (by simpa [joinSep] using h)

theorem joinChars_chars (flat : List ℚ) :
    ∀ c ∈ joinChars flat, goodCoordChar c = true ∨ c = ',' := by
  refine joinSep_chars _ ',' (Or.inr rfl) _ ?_
  intro p hp c hc
  rcases List.mem_map.mp hp with ⟨q, _, rfl⟩
  exact Or.inl (fmt_chars q c hc)

theorem takeWhile_ne_append (c : Char) (M T : List Char)
    (h : ∀ x ∈ M, x ≠ c) :
    (M ++ c :: T).takeWhile (fun x => x ≠ c) = M := by
  induction M with
  | nil => simp
  | cons a as ih =>
      have ha : a ≠ c := h a (List.mem_cons_self a as)
      simp only [List.cons_append, List.takeWhile_cons]
      rw [if_pos (by simpa using ha)]
      rw [ih (fun x hx => h x (List.mem_cons_of_mem a hx))]

theorem dropWhile_ne_append (c : Char) (M T : List Char)
    (h : ∀ x ∈ M, x ≠ c) :
    (M ++ c :: T).dropWhile (fun x => x ≠ c) = c :: T := by
  induction M with
  | nil => simp
  | cons a as ih =>
      have ha : a ≠ c := h a (List.mem_cons_self a as)
      simp only [List.cons_append, List.dropWhile_cons]
      rw [if_pos (by simpa using ha)]
      exact ih (fun x hx => h x (List.mem_cons_of_mem a hx))

theorem beforeNewline_append (M : List Char) (h : ∀ x ∈ M, x ≠ '\n') :
    beforeNewline (M ++ ['\n']) = M := by
  have := takeWhile_ne_append '\n' M [] h
  simpa [beforeNewline] using this

theorem map_noComma (p : List Char) (h : ∀ c ∈ p, c ≠ ',') :
    p.map (fun c => if c = ',' then ' ' else c) = p := by
  have h1 : ∀ c ∈ p, (if c = ',' then ' ' else c) = id c :=
    fun c hc => if_neg (h c hc)
  rw [List.map_congr_left h1, List.map_id]

theorem replaceComma_joinSep (parts : List (List Char))
    (h : ∀ p ∈ parts, ∀ c ∈ p, c ≠ ',') :
    (joinSep ',' parts).map (fun c => if c = ',' then ' ' else c)
      = joinSep ' ' parts := by
  induction parts with
  | nil => simp [joinSep]
  | cons p rest ih =>
      cases rest with
      | nil => simpa [joinSep] using map_noComma p (h p (by simp))
      | cons q r =>
          simp only [joinSep, List.map_append, List.map_cons, if_pos rfl]
          rw [map_noComma p (h p (by simp))]
          rw [ih (fun p' hp' => h p' (List.mem_cons_of_mem p hp'))]
          simp

theorem splitWSAux_push (w : List Char) (hw : ∀ c ∈ w, isPySpace c = false) :
    ∀ (rest acc : List Char),
      splitWSAux (w ++ rest) acc = splitWSAux rest (w.reverse ++ acc) := by
  induction w with
  | nil => intro rest acc; simp
  | cons a as ih =>
      intro rest acc
      have ha : isPySpace a = false := hw a (List.mem_cons_self a as)
      simp only [List.cons_append, splitWSAux, ha, Bool.false_eq_true, if_false,
        List.append_eq]
      rw [ih (fun c hc => hw c (List.mem_cons_of_mem a hc)) rest (a :: acc)]
      simp

theorem pySplitWS_joinSep (parts : List (List Char))
    (hne : ∀ p ∈ parts, p ≠ [])
    (hsp : ∀ p ∈ parts, ∀ c ∈ p, isPySpace c = false) :
    pySplitWS (joinSep ' ' parts) = parts := by
  induction parts with
  | nil => rfl
  | cons p rest ih =>
      cases rest with
      | nil =>
          show splitWSAux (joinSep ' ' [p]) [] = [p]
          have : joinSep ' ' [p] = p ++ [] := by simp [joinSep]
          rw [this, splitWSAux_push p (hsp p (by simp)) [] []]
          have hpne : p.reverse.isEmpty = false := by
            simp [List.isEmpty_iff, hne p (by simp)]
          simp [splitWSAux, hpne]
      | cons q r =>
          show splitWSAux (joinSep ' ' (p :: q :: r)) [] = p :: q :: r
          have hj : joinSep ' ' (p :: q :: r) = p ++ ' ' :: joinSep ' ' (q :: r) := rfl
          rw [hj, splitWSAux_push p (hsp p (by simp)) _ []]
          have hpne : (p.reverse ++ []).isEmpty = false := by
            simp [List.isEmpty_iff, hne p (by simp)]
          simp only [splitWSAux, show isPySpace ' ' = true from rfl, if_pos, hpne,
            Bool.false_eq_true, if_false]
          have hx := ih (fun p' hp' => hne p' (List.mem_cons_of_mem p hp'))
            (fun p' hp' => hsp p' (List.mem_cons_of_mem p hp'))
          simp only [pySplitWS] at hx
          rw [hx]
          simp

theorem optMapM_parse (flat : List ℚ)
    (h : ∀ q ∈ flat, pyFloatQ (fmtFixed15 q) = some q) :
    optMapM (fun w => pyFloatQ (String.mk w)) (flat.map fmtFixed15Chars)
      = some flat := by
  induction flat with
  | nil => rfl
  | cons q rest ih =>
      have hq : pyFloatQ (String.mk (fmtFixed15Chars q)) = some q :=
        h q (List.mem_cons_self q rest)
      simp only [List.map_cons, optMapM, hq, Option.bind_eq_bind, Option.some_bind]
      rw [ih (fun q' hq' => h q' (List.mem_cons_of_mem q hq'))]
      rfl

theorem unflatten_flatten (r : List (ℚ × ℚ)) :
    unflattenPairs (flattenPairs r) = r := by
  induction r with
  | nil => rfl
  | cons p rest ih =>
      simp only [flattenPairs, List.flatMap_cons]
      show unflattenPairs (p.1 :: p.2 :: rest.flatMap (fun p => [p.1, p.2])) = p :: rest
      rw [unflattenPairs]
      rw [show rest.flatMap (fun p => [p.1, p.2]) = flattenPairs rest from rfl, ih]

/-- Full evaluation of the polygon branch on a line of the exact shape
`ds9regfile.write` emits, for coordinates that survive the 15-decimal
format: the parsed polygon is the flat coordinate list re-paired, and the
reconstruction step runs on the tag triple and hole marker decoded from
the trailing comment. -/
theorem readPolyLine_eval (st : DS9State) (flat : List ℚ)
    (post att2 att3 : List Char) (bg : Bool)
    (tags : List (List Char × List Char)) (iv jv kv : ℤ)
    (hq : ∀ q ∈ flat, pyFloatQ (fmtFixed15 q) = some q)
    (hhash : afterLastHash post = att2)
    (hbg : hasSubstr (("background").toList) att2 = bg)
    (hatt3 : (if bg then afterLastMatch (("background").toList) att2 else att2)
      = att3)
    (hparse : parse_ds9_attrs att3 false = some tags)
    (htags : applyTags tags st.ci st.cj st.ck = some (some iv, some jv, some kv)) :
    readPolyLine st (("polygon(").toList ++ (joinChars flat ++ ')' :: post))
      = some ⟨(readStep ⟨st.items, st.i0, st.j0, st.k0⟩
            ⟨iv, jv, kv, bg, DGeom.poly (unflattenPairs flat)⟩).items,
          st.attrs, some iv, some jv, some kv, some iv, some jv, some kv⟩ := by
  have hmid : ∀ x ∈ joinChars flat, x ≠ ')' := by
    intro x hx
    rcases joinChars_chars flat x hx with h | h
    · exact (goodCoordChar_spec x h).1
    · subst h; decide
  have h1 : pyPartitionAfter '(' (("polygon(").toList ++ (joinChars flat ++ ')' :: post))
      = joinChars flat ++ ')' :: post := rfl
  have h2 : (joinChars flat ++ ')' :: post).takeWhile (fun c => c ≠ ')')
      = joinChars flat := takeWhile_ne_append ')' _ post hmid
  have h3 : ((joinChars flat ++ ')' :: post).dropWhile (fun c => c ≠ ')')).drop 1
      = post := by
    rw [dropWhile_ne_append ')' _ post hmid]
    rfl
  have h4 : (joinChars flat).map (fun c => if c = ',' then ' ' else c)
      = joinSep ' ' (flat.map fmtFixed15Chars) := by
    refine replaceComma_joinSep _ ?_
    intro p hp c hc
    rcases List.mem_map.mp hp with ⟨q, _, rfl⟩
    exact (goodCoordChar_spec c (fmt_chars q c hc)).2.1
  have h5 : pySplitWS (joinSep ' ' (flat.map fmtFixed15Chars))
      = flat.map fmtFixed15Chars := by
    refine pySplitWS_joinSep _ ?_ ?_
    · intro p hp
      rcases List.mem_map.mp hp with ⟨q, _, rfl⟩
      exact fmt_ne_nil q
    · intro p hp c hc
      rcases List.mem_map.mp hp with ⟨q, _, rfl⟩
      exact (goodCoordChar_spec c (fmt_chars q c hc)).2.2.2.2.2
  have h6 : optMapM (fun w => pyFloatQ (String.mk w)) (flat.map fmtFixed15Chars)
      = some flat := optMapM_parse flat hq
  simp only [readPolyLine, h1, h2, h3, h4, h5, h6, hhash, hbg, hatt3, hparse,
    htags, Option.bind_eq_bind, Option.some_bind]
  rfl

/-- The five possible dispositions of one tagged polygon line, as the
spec words the decision order. -/
inductive RAction where
  | newGroup
  | newPrim
  | unionPoly
  | holeDiff
  | keep
deriving DecidableEq, Repr

/-- The spec's first-match-wins decision order: item-index novelty, then
geo-index novelty, then poly-index novelty, then the background/hole
marker, else nothing. -/
def lineAction (i0 j0 k0 : Option ℤ) (ln : TaggedLine) : RAction :=
  if some ln.i ≠ i0 then .newGroup
  else if some ln.j ≠ j0 then .newPrim
  else if some ln.k ≠ k0 then .unionPoly
  else if ln.isHole then .holeDiff
  else .keep

/-- What each disposition does to the group list. -/
def applyAction (items : List (Item DGeom)) (poly : DGeom) :
    RAction → List (Item DGeom)
  | .newGroup => items ++ [⟨[⟨some poly, none⟩], none⟩]
  | .newPrim =>
      modifyLast (fun it => ⟨it.geos ++ [⟨some poly, none⟩], it.attrs⟩) items
  | .unionPoly =>
      modifyLast (fun it =>
        ⟨modifyLast (fun g => ⟨g.geo.map (fun x => DGeom.union x poly), g.attrs⟩)
          it.geos, it.attrs⟩) items
  | .holeDiff =>
      modifyLast (fun it =>
        ⟨modifyLast (fun g => ⟨g.geo.map (fun x => DGeom.diff x poly), g.attrs⟩)
          it.geos, it.attrs⟩) items
  | .keep => items

/-- C1: the region-text reader's per-line step applies exactly the
first-match-wins decision order on the remembered tag triple — the new
group list is `applyAction` of `lineAction`, and the remembered triple
becomes the line's triple — and the hole branch is reached only when the
line's whole triple equals the previous one, so a hole line whose triple
differs from its parent's is never processed as a hole (it starts a new
group, a new primitive, or a union instead). -/
theorem ds9_read_decision_order :
    (∀ (st : RState) (ln : TaggedLine),
      readStep st ln
        = ⟨applyAction st.items ln.poly (lineAction st.i0 st.j0 st.k0 ln),
            some ln.i, some ln.j, some ln.k⟩)
    ∧ (∀ (st : RState) (ln : TaggedLine),
      lineAction st.i0 st.j0 st.k0 ln = .holeDiff →
        some ln.i = st.i0 ∧ some ln.j = st.j0 ∧ some ln.k = st.k0
          ∧ ln.isHole = true)
    ∧ (∀ (st : RState) (ln : TaggedLine), ln.isHole = true →
      ¬(some ln.i = st.i0 ∧ some ln.j = st.j0 ∧ some ln.k = st.k0) →
        lineAction st.i0 st.j0 st.k0 ln ≠ .holeDiff) := by
  have hchar : ∀ (st : RState) (ln : TaggedLine),
      readStep st ln
        = ⟨applyAction st.items ln.poly (lineAction st.i0 st.j0 st.k0 ln),
            some ln.i, some ln.j, some ln.k⟩ := by
    intro st ln
    unfold readStep lineAction
    by_cases h1 : some ln.i ≠ st.i0
    · simp [h1, applyAction, mkItem, itemInitGeos, SeqArg.falsy]
    · by_cases h2 : some ln.j ≠ st.j0
      · simp [h1, h2, applyAction]
      · by_cases h3 : some ln.k ≠ st.k0
        · simp [h1, h2, h3, applyAction]
        · by_cases h4 : ln.isHole
          · simp [h1, h2, h3, h4, applyAction]
          · simp [h1, h2, h3, h4, applyAction]
  have honly : ∀ (st : RState) (ln : TaggedLine),
      lineAction st.i0 st.j0 st.k0 ln = .holeDiff →
        some ln.i = st.i0 ∧ some ln.j = st.j0 ∧ some ln.k = st.k0
          ∧ ln.isHole = true := by
    intro st ln h
    unfold lineAction at h
    by_cases h1 : some ln.i ≠ st.i0
    · simp [h1] at h
    · by_cases h2 : some ln.j ≠ st.j0
      · simp [h1, h2] at h
      · by_cases h3 : some ln.k ≠ st.k0
        · simp [h1, h2, h3] at h
        · by_cases h4 : ln.isHole
          · push_neg at h1 h2 h3
            exact ⟨h1, h2, h3, h4⟩
          · simp [h1, h2, h3, h4] at h
  refine ⟨hchar, honly, ?_⟩
  intro st ln _ hne hact
  rcases honly st ln hact with ⟨e1, e2, e3, _⟩
  exact hne ⟨e1, e2, e3⟩

/-- The shoelace sum of a closed coordinate ring. -/
def shoelaceSum : List (ℚ × ℚ) → ℚ
  | p :: q :: rest => (p.1 * q.2 - q.1 * p.2) + shoelaceSum (q :: rest)
  | _ => 0

/-- The area of the polygon bounded by a closed ring (shapely's
`Polygon(ring).area`). -/
def ringArea (r : List (ℚ × ℚ)) : ℚ :=
  |shoelaceSum r| / 2

theorem beforeNewline_polyline (mid ttail : List Char)
    (hmid : ∀ c ∈ mid, c ≠ '\n') (htail : ∀ c ∈ ttail, c ≠ '\n') :
    beforeNewline (("polygon(").toList ++ (mid ++ ')' :: (ttail ++ ['\n'])))
      = ("polygon(").toList ++ (mid ++ ')' :: ttail) := by
  have hshape : ("polygon(").toList ++ (mid ++ ')' :: (ttail ++ ['\n']))
      = (("polygon(").toList ++ (mid ++ ')' :: ttail)) ++ ['\n'] := by
    simp [List.append_assoc]
  rw [hshape]
  refine beforeNewline_append _ ?_
  intro x hx
  simp only [List.mem_append, List.mem_cons] at hx
  rcases hx with h | h | h | h
  · fin_cases h <;> decide
  · exact hmid x h
  · subst h; decide
  · exact htail x h

/-- A coordinate list's join never contains a newline. -/
theorem joinChars_no_newline (flat : List ℚ) :
    ∀ c ∈ joinChars flat, c ≠ '\n' := by
  intro c hc
  rcases joinChars_chars flat c hc with h | h
  · exact (goodCoordChar_spec c h).2.2.2.2.1
  · subst h; decide

/-- The exterior line of group 0 / geo 0 / poly 0 through the polygon
branch. -/
theorem readPolyLine_t000 (st : DS9State) (flat : List ℚ)
    (hq : ∀ q ∈ flat, pyFloatQ (fmtFixed15 q) = some q) :
    readPolyLine st (("polygon(").toList ++ (joinChars flat ++ ')'
        :: ((" #").toList ++ (tagChars ("item").toList 0
          ++ tagChars ("geo").toList 0 ++ tagChars ("poly").toList 0))))
      = some ⟨(readStep ⟨st.items, st.i0, st.j0, st.k0⟩
            ⟨0, 0, 0, false, DGeom.poly (unflattenPairs flat)⟩).items,
          st.attrs, some 0, some 0, some 0, some 0, some 0, some 0⟩ :=
  readPolyLine_eval st flat _ _ _ false _ 0 0 0 hq rfl rfl rfl rfl rfl

/-- The exterior line of group 1 / geo 0 / poly 0. -/
theorem readPolyLine_t100 (st : DS9State) (flat : List ℚ)
    (hq : ∀ q ∈ flat, pyFloatQ (fmtFixed15 q) = some q) :
    readPolyLine st (("polygon(").toList ++ (joinChars flat ++ ')'
        :: ((" #").toList ++ (tagChars ("item").toList 1
          ++ tagChars ("geo").toList 0 ++ tagChars ("poly").toList 0))))
      = some ⟨(readStep ⟨st.items, st.i0, st.j0, st.k0⟩
            ⟨1, 0, 0, false, DGeom.poly (unflattenPairs flat)⟩).items,
          st.attrs, some 1, some 0, some 0, some 1, some 0, some 0⟩ :=
  readPolyLine_eval st flat _ _ _ false _ 1 0 0 hq rfl rfl rfl rfl rfl

/-- The background/hole line of group 1 / geo 0 / poly 0. -/
theorem readPolyLine_t100bg (st : DS9State) (flat : List ℚ)
    (hq : ∀ q ∈ flat, pyFloatQ (fmtFixed15 q) = some q) :
    readPolyLine st (("polygon(").toList ++ (joinChars flat ++ ')'
        :: ((" # background").toList ++ (tagChars ("item").toList 1
          ++ tagChars ("geo").toList 0 ++ tagChars ("poly").toList 0))))
      = some ⟨(readStep ⟨st.items, st.i0, st.j0, st.k0⟩
            ⟨1, 0, 0, true, DGeom.poly (unflattenPairs flat)⟩).items,
          st.attrs, some 1, some 0, some 0, some 1, some 0, some 0⟩ :=
  readPolyLine_eval st flat _ _ _ true _ 1 0 0 hq rfl rfl rfl rfl rfl

/-- The tag comment of group 0 / geo 0 / poly 0. -/
def tags000 : List Char :=
  tagChars ("item").toList 0 ++ tagChars ("geo").toList 0
    ++ tagChars ("poly").toList 0

/-- The tag comment of group 1 / geo 0 / poly 0. -/
def tags100 : List Char :=
  tagChars ("item").toList 1 ++ tagChars ("geo").toList 0
    ++ tagChars ("poly").toList 0

/-- C3: region-text hierarchy round-trip.  Writing a Root with exactly
two groups — group 1 one primitive with a single (hole-free) polygon,
group 2 one primitive whose polygon contains one hole — and reading the
emitted lines back yields a Root with two groups in which the hole has
been subtracted (a `difference` call) from group 2's primitive geometry;
consequently, for any external area function `A` satisfying the library
contract on these values (polygon area is the ring area; subtracting a
contained hole subtracts its area), the reconstructed geometry's area is
the outer ring area minus the hole area.  Coordinates must survive the
15-decimal fixed-point format exactly (`hq*`), which is the format's own
resolution limit. -/
theorem ds9_region_roundtrip {η : Type} (r1 r2 hole : List (ℚ × ℚ))
    (a1 a2 b1 b2 ga : Attrs) (hd : Option η) (A : DGeom → ℚ)
    (hq1 : ∀ q ∈ flattenPairs r1, pyFloatQ (fmtFixed15 q) = some q)
    (hq2 : ∀ q ∈ flattenPairs r2, pyFloatQ (fmtFixed15 q) = some q)
    (hqh : ∀ q ∈ flattenPairs hole, pyFloatQ (fmtFixed15 q) = some q)
    (hAp : ∀ r, A (DGeom.poly r) = ringArea r)
    (hAd : A (DGeom.diff (DGeom.poly r2) (DGeom.poly hole))
      = A (DGeom.poly r2) - A (DGeom.poly hole)) :
    (ds9write (Geoset.mk
        [Item.mk [Geo.mk (some (Geom.single ⟨r1, []⟩)) a1] b1,
         Item.mk [Geo.mk (some (Geom.single ⟨r2, [hole]⟩)) a2] b2] ga hd)
      none).bind (ds9read (η := η))
      = some (Geoset.mk
          [Item.mk [Geo.mk (some (DGeom.poly r1)) none] none,
           Item.mk [Geo.mk (some (DGeom.diff (DGeom.poly r2) (DGeom.poly hole)))
             none] none]
          (some [("coordsys", Scalar.str "physical")]) none)
    ∧ A (DGeom.diff (DGeom.poly r2) (DGeom.poly hole))
        = ringArea r2 - ringArea hole := by
  constructor
  · have hw : ds9write (η := η) (Geoset.mk
        [Item.mk [Geo.mk (some (Geom.single ⟨r1, []⟩)) a1] b1,
         Item.mk [Geo.mk (some (Geom.single ⟨r2, [hole]⟩)) a2] b2] ga hd)
        none
        = some ["physical\n",
            String.mk (("polygon(").toList ++ (joinChars (flattenPairs r1)
              ++ ')' :: ((" #").toList ++ tags000 ++ ['\n']))),
            String.mk (("polygon(").toList ++ (joinChars (flattenPairs r2)
              ++ ')' :: ((" #").toList ++ tags100 ++ ['\n']))),
            String.mk (("polygon(").toList ++ (joinChars (flattenPairs hole)
              ++ ')' :: ((" # background").toList ++ tags100 ++ ['\n'])))] := rfl
    rw [hw, Option.some_bind]
    have s1 : readLineL ds9InitState (beforeNewline ("physical\n").toList)
        = some ⟨[], some [("coordsys", Scalar.str "physical")],
            none, none, none, none, none, none⟩ := rfl
    have hb2 : beforeNewline (("polygon(").toList ++ (joinChars (flattenPairs r1)
          ++ ')' :: ((" #").toList ++ tags000 ++ ['\n'])))
        = ("polygon(").toList ++ (joinChars (flattenPairs r1)
            ++ ')' :: ((" #").toList ++ tags000)) :=
      beforeNewline_polyline (joinChars (flattenPairs r1))
        ((" #").toList ++ tags000) (joinChars_no_newline _) (by decide)
    have hb3 : beforeNewline (("polygon(").toList ++ (joinChars (flattenPairs r2)
          ++ ')' :: ((" #").toList ++ tags100 ++ ['\n'])))
        = ("polygon(").toList ++ (joinChars (flattenPairs r2)
            ++ ')' :: ((" #").toList ++ tags100)) :=
      beforeNewline_polyline (joinChars (flattenPairs r2))
        ((" #").toList ++ tags100) (joinChars_no_newline _) (by decide)
    have hb4 : beforeNewline (("polygon(").toList ++ (joinChars (flattenPairs hole)
          ++ ')' :: ((" # background").toList ++ tags100 ++ ['\n'])))
        = ("polygon(").toList ++ (joinChars (flattenPairs hole)
            ++ ')' :: ((" # background").toList ++ tags100)) :=
      beforeNewline_polyline (joinChars (flattenPairs hole))
        ((" # background").toList ++ tags100) (joinChars_no_newline _) (by decide)
    have s2 : readLineL
        ⟨[], some [("coordsys", Scalar.str "physical")],
          none, none, none, none, none, none⟩
        (beforeNewline (("polygon(").toList ++ (joinChars (flattenPairs r1)
          ++ ')' :: ((" #").toList ++ tags000 ++ ['\n']))))
        = some ⟨[⟨[⟨some (DGeom.poly r1), none⟩], none⟩],
            some [("coordsys", Scalar.str "physical")],
            some 0, some 0, some 0, some 0, some 0, some 0⟩ := by
      rw [hb2]
      have h := readPolyLine_t000
        ⟨[], some [("coordsys", Scalar.str "physical")],
          none, none, none, none, none, none⟩ (flattenPairs r1) hq1
      rw [unflatten_flatten] at h
      exact h
    have s3 : readLineL
        ⟨[⟨[⟨some (DGeom.poly r1), none⟩], none⟩],
          some [("coordsys", Scalar.str "physical")],
          some 0, some 0, some 0, some 0, some 0, some 0⟩
        (beforeNewline (("polygon(").toList ++ (joinChars (flattenPairs r2)
          ++ ')' :: ((" #").toList ++ tags100 ++ ['\n']))))
        = some ⟨[⟨[⟨some (DGeom.poly r1), none⟩], none⟩,
              ⟨[⟨some (DGeom.poly r2), none⟩], none⟩],
            some [("coordsys", Scalar.str "physical")],
            some 1, some 0, some 0, some 1, some 0, some 0⟩ := by
      rw [hb3]
      have h := readPolyLine_t100
        ⟨[⟨[⟨some (DGeom.poly r1), none⟩], none⟩],
          some [("coordsys", Scalar.str "physical")],
          some 0, some 0, some 0, some 0, some 0, some 0⟩ (flattenPairs r2) hq2
      rw [unflatten_flatten] at h
      exact h
    have s4 : readLineL
        ⟨[⟨[⟨some (DGeom.poly r1), none⟩], none⟩,
            ⟨[⟨some (DGeom.poly r2), none⟩], none⟩],
          some [("coordsys", Scalar.str "physical")],
          some 1, some 0, some 0, some 1, some 0, some 0⟩
        (beforeNewline (("polygon(").toList ++ (joinChars (flattenPairs hole)
          ++ ')' :: ((" # background").toList ++ tags100 ++ ['\n']))))
        = some ⟨[⟨[⟨some (DGeom.poly r1), none⟩], none⟩,
              ⟨[⟨some (DGeom.diff (DGeom.poly r2) (DGeom.poly hole)), none⟩],
                none⟩],
            some [("coordsys", Scalar.str "physical")],
            some 1, some 0, some 0, some 1, some 0, some 0⟩ := by
      rw [hb4]
      have h := readPolyLine_t100bg
        ⟨[⟨[⟨some (DGeom.poly r1), none⟩], none⟩,
            ⟨[⟨some (DGeom.poly r2), none⟩], none⟩],
          some [("coordsys", Scalar.str "physical")],
          some 1, some 0, some 0, some 1, some 0, some 0⟩ (flattenPairs hole) hqh
      rw [unflatten_flatten] at h
      exact h
    unfold ds9read
    have htl : ∀ l : List Char, (String.mk l).toList = l := fun l => rfl
    simp only [htl] at s1 s2 s3 s4
    simp only [List.foldlM_cons, List.foldlM_nil, htl, s1, s2, s3, s4,
      Option.bind_eq_bind, Option.some_bind, Option.bind_some, Option.pure_def]
  · rw [hAd, hAp, hAp]

/-- A concrete model of the external area function on reader-built
geometry: polygon area is the ring area, union adds, difference
subtracts. -/
def areaModel : DGeom → ℚ
  | .poly r => ringArea r
  | .union a b => areaModel a + areaModel b
  | .diff a b => areaModel a - areaModel b

/-- A 4×4 square at the origin (closed ring). -/
def demoR1 : List (ℚ × ℚ) := [(0, 0), (4, 0), (4, 4), (0, 4), (0, 0)]

/-- A 4×4 square at x = 10. -/
def demoR2 : List (ℚ × ℚ) := [(10, 0), (14, 0), (14, 4), (10, 4), (10, 0)]

/-- A unit-square hole inside `demoR2`. -/
def demoHole : List (ℚ × ℚ) := [(11, 1), (12, 1), (12, 2), (11, 2), (11, 1)]

/-- C3 witness: the round-trip at two concrete square groups, the second
with a unit hole, under the concrete area model. -/
theorem ds9_region_roundtrip_witness :
    (ds9write (Geoset.mk
        [Item.mk [Geo.mk (some (Geom.single ⟨demoR1, []⟩)) none] none,
         Item.mk [Geo.mk (some (Geom.single ⟨demoR2, [demoHole]⟩)) none] none]
        none (none : Option Unit))
      none).bind (ds9read (η := Unit))
      = some (Geoset.mk
          [Item.mk [Geo.mk (some (DGeom.poly demoR1)) none] none,
           Item.mk [Geo.mk (some (DGeom.diff (DGeom.poly demoR2)
             (DGeom.poly demoHole))) none] none]
          (some [("coordsys", Scalar.str "physical")]) none)
    ∧ areaModel (DGeom.diff (DGeom.poly demoR2) (DGeom.poly demoHole))
        = ringArea demoR2 - ringArea demoHole :=
  ds9_region_roundtrip demoR1 demoR2 demoHole none none none none none
    (none : Option Unit) areaModel (by decide) (by decide) (by decide)
    (fun r => rfl) rfl

/-- C1 witness: a concrete hole-marked line whose item index differs from
the remembered triple is dispatched as a new group, not as a hole, and
the step appends a fresh group accordingly. -/
theorem ds9_read_decision_order_witness :
    readStep ⟨[], some 0, some 0, some 0⟩
        ⟨1, 0, 0, true, DGeom.poly []⟩
      = ⟨applyAction [] (DGeom.poly [])
            (lineAction (some 0) (some 0) (some 0) ⟨1, 0, 0, true, DGeom.poly []⟩),
          some 1, some 0, some 0⟩
    ∧ lineAction (some 0) (some 0) (some 0) ⟨1, 0, 0, true, DGeom.poly []⟩
        ≠ RAction.holeDiff := by
  constructor
  · exact ds9_read_decision_order.1 ⟨[], some 0, some 0, some 0⟩
      ⟨1, 0, 0, true, DGeom.poly []⟩
  · exact ds9_read_decision_order.2.2 ⟨[], some 0, some 0, some 0⟩
      ⟨1, 0, 0, true, DGeom.poly []⟩ rfl (by simp)

end Geoutil
